import Mathlib

/-!
# minke.io b1t keyboard: matrix scanner, MCP23018 expander driver and LED hooks

A shallow embedding of `keyboards/minke_io/b1t/matrix.c` and
`keyboards/minke_io/b1t/b1t.c`.

* Module-level C variables (`i2c_initialized`, `mcp23018_reset_loop`,
  `mcp23018_status`, `raw_matrix`) are the fields of `State`, threaded
  explicitly through every function.
* The AVR data-direction and output registers are kept per pin in `Pins`.
* Every hardware effect (a pin write or an I2C bus operation) is appended to
  `State.trace`, so that the order of effects can be stated.
* The outside world is `Hw`: the status code and data the I2C transport hands
  back for an operation (as a function of everything done so far), and the
  value of the input registers `PINB`/`PINF` when the columns of a row are read.
* `uint8_t`/`uint16_t` arithmetic is done on `Nat` with explicit reductions
  modulo `2^8`/`2^16`; `i2c_status_t` is a signed integer.
-/

namespace B1t

set_option linter.unusedTactic false
set_option linter.unreachableTactic false
set_option linter.unnecessarySeqFocus false

/-! ## Pins, events, hardware -/

/-- The AVR I/O ports used by the board. -/
inductive Port
  | B | C | D | F
deriving DecidableEq, Repr

/-- A `pin_t`: port and bit number. -/
structure Pin where
  port : Port
  bit : Nat
deriving DecidableEq, Repr

def B1 : Pin := ⟨Port.B, 1⟩
def B2 : Pin := ⟨Port.B, 2⟩
def B3 : Pin := ⟨Port.B, 3⟩
def B4 : Pin := ⟨Port.B, 4⟩
def B5 : Pin := ⟨Port.B, 5⟩
def B6 : Pin := ⟨Port.B, 6⟩
def C6 : Pin := ⟨Port.C, 6⟩
def D7 : Pin := ⟨Port.D, 7⟩
def F4 : Pin := ⟨Port.F, 4⟩
def F5 : Pin := ⟨Port.F, 5⟩
def F6 : Pin := ⟨Port.F, 6⟩
def F7 : Pin := ⟨Port.F, 7⟩

/-- A hardware effect: an I2C transport call or a write to a pin's registers. -/
inductive Event
  | i2c_start (address : Nat)
  | i2c_write (data : Nat)
  | i2c_stop
  | i2c_readReg (devaddr regaddr length : Nat)
  | setPinInput (pin : Pin)
  | setPinInputHigh (pin : Pin)
  | setPinOutput (pin : Pin)
  | writePin (pin : Pin) (level : Bool)
deriving DecidableEq, Repr

/-- Whether an event is an I2C bus operation. -/
def Event.isBus : Event → Bool
  | Event.i2c_start _ => true
  | Event.i2c_write _ => true
  | Event.i2c_stop => true
  | Event.i2c_readReg _ _ _ => true
  | _ => false

/-- The world outside the driver.
`i2c_status h op` is the `i2c_status_t` the transport returns for `op` when it
is issued after the effects `h`; `i2c_data h k` is byte `k` delivered by a
register read issued after `h`; `PINB r`/`PINF r` are the values of the input
registers at the moment the columns of row `r` are read. -/
structure Hw where
  i2c_status : List Event → Event → Int
  i2c_data : List Event → Nat → Nat
  PINB : Nat → Nat
  PINF : Nat → Nat

/-- Data-direction bit (`true` = output) and output-register bit of every pin. -/
structure Pins where
  ddr : Pin → Bool
  port : Pin → Bool

/-- The module-level variables of `matrix.c`, the pin registers and the log of
hardware effects. -/
structure State where
  i2c_initialized : Bool
  mcp23018_reset_loop : Nat
  mcp23018_status : Int
  raw_matrix : Nat → Nat
  pins : Pins
  trace : List Event

/-! ## Constants of `matrix.c` and `config.h` -/

/-- Modelled from the spec: the write-direction flag of the bus transport
header (`i2c_master.h`, not among the sources); the device is addressed at a
fixed 7-bit address and this flag selects a write transfer. -/
def I2C_WRITE : Nat := 0x00

def I2C_ADDR : Nat := 0b0100000
def I2C_ADDR_WRITE : Nat := (I2C_ADDR <<< 1) ||| I2C_WRITE
def IODIRA : Nat := 0x00
def IODIRB : Nat := 0x01
def GPPUA : Nat := 0x0C
def GPPUB : Nat := 0x0D
def GPIOA : Nat := 0x12
def GPIOB : Nat := 0x13
def OLATA : Nat := 0x14
def OLATB : Nat := 0x15
def I2C_TIMEOUT : Nat := 100

def MATRIX_ROWS : Nat := 5
def MATRIX_COLS : Nat := 15
def MATRIX_COLS_ONBOARD : Nat := 7
def MATRIX_COLS_EXPANDER : Nat := 8

def onboard_row_pins : List Pin := [F4, F5, F6, C6, D7]
def onboard_col_pins : List Pin := [B5, B4, B6, B2, B3, B1, F7]
def expander_row_registers : List Nat := [GPIOB, GPIOB, GPIOB, GPIOB, GPIOB]
def expander_row_pins : List Nat := [2, 1, 0, 3, 4]

/-- The wiring table kept as a comment in `matrix.c`: bank of each expander column. -/
def expander_col_registers : List Nat := [GPIOA, GPIOA, GPIOA, GPIOA, GPIOA, GPIOA, GPIOB, GPIOB]
/-- The wiring table kept as a comment in `matrix.c`: bit of each expander column. -/
def expander_col_pins : List Nat := [7, 6, 5, 4, 3, 2, 7, 6]

/-- Bitwise complement of a 16-bit word (C `~` seen through a 16-bit result). -/
def not16 (x : Nat) : Nat := 0xFFFF ^^^ (x % 0x10000)

/-! ## Pin primitives -/

/-- Effect of one event on the pin registers; bus operations leave them alone. -/
def Pins.apply (g : Pins) : Event → Pins
  | Event.setPinInput p =>
      ⟨fun q => if q = p then false else g.ddr q, fun q => if q = p then false else g.port q⟩
  | Event.setPinInputHigh p =>
      ⟨fun q => if q = p then false else g.ddr q, fun q => if q = p then true else g.port q⟩
  | Event.setPinOutput p =>
      ⟨fun q => if q = p then true else g.ddr q, g.port⟩
  | Event.writePin p level =>
      ⟨g.ddr, fun q => if q = p then level else g.port q⟩
  | _ => g

/-- Pin registers after a sequence of events. -/
def Pins.replay (g : Pins) : List Event → Pins
  | [] => g
  | ev :: rest => (g.apply ev).replay rest

/-- Perform a pin write and log it. -/
def pin_write (st : State) (ev : Event) : State :=
  { st with pins := st.pins.apply ev, trace := st.trace ++ [ev] }

/-- Modelled from the spec: the framework pin helper (not among the sources)
that makes a pin a floating, high-impedance input: direction bit and output
bit both cleared. -/
def setPinInput (st : State) (pin : Pin) : State := pin_write st (Event.setPinInput pin)

/-- Modelled from the spec: the framework pin helper (not among the sources)
that makes a pin an input with its pull-up enabled. -/
def setPinInputHigh (st : State) (pin : Pin) : State := pin_write st (Event.setPinInputHigh pin)

/-- Modelled from the spec: the framework pin helper (not among the sources)
that makes a pin an output; the output bit is left as it was. -/
def setPinOutput (st : State) (pin : Pin) : State := pin_write st (Event.setPinOutput pin)

/-- Modelled from the spec: the framework pin helper (not among the sources)
that sets the output bit of a pin to the given level. -/
def writePin (st : State) (pin : Pin) (level : Bool) : State :=
  pin_write st (Event.writePin pin level)

/-- Modelled from the spec: the framework pin helper (not among the sources)
that clears the output bit of a pin. -/
def writePinLow (st : State) (pin : Pin) : State := writePin st pin false

/-! ## Bus transport primitives -/

/-- Modelled from the spec: a status-returning primitive of the bus transport
(`i2c_start` or `i2c_write`, not among the sources) together with the
assignment of its result to `mcp23018_status`, i.e. the statement
`mcp23018_status = i2c_start(...)` or `mcp23018_status = i2c_write(...)`.
The timeout argument, always `I2C_TIMEOUT`, is not recorded. -/
def bus_call (hw : Hw) (st : State) (op : Event) : State :=
  { st with mcp23018_status := hw.i2c_status st.trace op, trace := st.trace ++ [op] }

/-- Modelled from the spec: the stop primitive of the bus transport (not among
the sources); it returns nothing. -/
def i2c_stop (st : State) : State :=
  { st with trace := st.trace ++ [Event.i2c_stop] }

/-- Modelled from the spec: the register-read primitive of the bus transport
(not among the sources); returns the status code and the two bytes read. -/
def i2c_readReg (hw : Hw) (st : State) (devaddr regaddr length _timeout : Nat) :
    Int × (Nat × Nat) × State :=
  (hw.i2c_status st.trace (Event.i2c_readReg devaddr regaddr length),
    (hw.i2c_data st.trace 0 % 256, hw.i2c_data st.trace 1 % 256),
    { st with trace := st.trace ++ [Event.i2c_readReg devaddr regaddr length] })

/-- The assignment `mcp23018_status = <bus call>`. -/
def set_status (r : Int × State) : State :=
  { r.2 with mcp23018_status := r.1 }

/-- A chain of statements `mcp23018_status = op(...); if (mcp23018_status) goto out;`
over the given operations, run up to the label `out`: each operation is issued
and its status stored; the first non-zero status ends the chain, the remaining
operations are not issued. What stands at `out` is written by the caller. -/
def bus_chain (hw : Hw) (st : State) : List Event → State
  | [] => st
  | op :: rest =>
      if (bus_call hw st op).mcp23018_status ≠ 0 then bus_call hw st op
      else bus_chain hw (bus_call hw st op) rest

/-! ## `matrix.c` -/

/-- The block of `init_mcp23018` that opens the bus transport once: `i2c_init()`
(which issues no bus operation), `i2c_initialized = true` and a delay. -/
def open_transport (st : State) : State :=
  if !st.i2c_initialized then { st with i2c_initialized := true } else st

/-- The two register-write transactions of `init_mcp23018`. A failure in the
first jumps to `out`, past the `i2c_stop()` that separates the transactions;
`out` is the last `i2c_stop()`, reached on every path. -/
def init_mcp23018 (hw : Hw) (st : State) : State :=
  let st := { st with mcp23018_status := 0x20 }
  let st := open_transport st
  let st := bus_chain hw st
    [Event.i2c_start I2C_ADDR_WRITE, Event.i2c_write IODIRA,
     Event.i2c_write 0b11111110, Event.i2c_write 0b11100000]
  if st.mcp23018_status ≠ 0 then i2c_stop st else
  let st := i2c_stop st
  let st := bus_chain hw st
    [Event.i2c_start I2C_ADDR_WRITE, Event.i2c_write GPPUA,
     Event.i2c_write 0b11111110, Event.i2c_write 0b11100000]
  i2c_stop st

def init_cols (st : State) : State :=
  onboard_col_pins.foldl setPinInputHigh st

def unselect_rows (st : State) : State :=
  onboard_row_pins.foldl setPinInput st

/-- An index outside `onboard_row_pins` (never passed by the scanner) selects nothing. -/
def select_row_onboard (st : State) (row : Nat) : State :=
  match onboard_row_pins[row]? with
  | some pin => writePinLow (setPinOutput st pin) pin
  | none => st

/-- The guarded row write; `out` is the `i2c_stop()` inside the guard. -/
def select_row_expander (hw : Hw) (st : State) (row : Nat) : State :=
  if st.mcp23018_status = 0 then
    let reg := expander_row_registers.getD row 0
    let pin := expander_row_pins.getD row 0
    let st := bus_chain hw st
      [Event.i2c_start I2C_ADDR_WRITE, Event.i2c_write reg,
       Event.i2c_write (0xFF &&& not16 (1 <<< pin))]
    i2c_stop st
  else st

/-- The source ignores `row`; here it names the moment at which `PINB` and
`PINF` are read. -/
def read_cols_onboard (hw : Hw) (row : Nat) : Nat :=
  let PINB := hw.PINB row % 256
  let PINF := hw.PINF row % 256
  let val := 0xFF80
  let val := val ||| ((PINB &&& (1 <<< 5)) >>> (5 - 0))
  let val := val ||| ((PINB &&& (1 <<< 4)) >>> (4 - 1))
  let val := val ||| ((PINB &&& (1 <<< 6)) >>> (6 - 2))
  let val := val ||| ((PINB &&& (1 <<< 2)) <<< 1)
  let val := val ||| ((PINB &&& (1 <<< 3)) <<< 1)
  let val := val ||| ((PINB &&& (1 <<< 1)) <<< 4)
  let val := val ||| ((PINF &&& (1 <<< 7)) >>> (7 - 6))
  not16 val

/-- One iteration of the loop of `reverseBits` on `(result, num)`. -/
def reverseBits_step (acc : Nat × Nat) : Nat × Nat :=
  let result := (acc.1 <<< 1) % 256
  let result := result ||| (acc.2 &&& 1)
  (result, acc.2 >>> 1)

def reverseBits (num : Nat) : Nat :=
  ((List.range 8).foldl (fun acc _ => reverseBits_step acc) (0, num % 256)).1

def read_cols_expander (hw : Hw) (st : State) (_row : Nat) : Nat × State :=
  if st.mcp23018_status ≠ 0 then (0, st) else
    let r := i2c_readReg hw st I2C_ADDR_WRITE GPIOA 2 I2C_TIMEOUT
    let vals := r.2.1
    let st := set_status (r.1, r.2.2)
    if st.mcp23018_status ≠ 0 then (0, st) else
    let val := 0x00FF &&& not16 (reverseBits ((vals.1 &&& 0b11111100) ||| (vals.2 >>> 6)))
    (val, st)

def store_raw_matrix_row (hw : Hw) (st : State) (row : Nat) : Bool × State :=
  let onboard_row := read_cols_onboard hw row
  let r := read_cols_expander hw st row
  let expander_row := r.1
  let st := r.2
  let temp := ((expander_row <<< MATRIX_COLS_ONBOARD) ||| onboard_row) % 0x10000
  if st.raw_matrix row ≠ temp then
    (true, { st with raw_matrix := fun i => if i = row then temp else st.raw_matrix i })
  else (false, st)

def matrix_init_custom (hw : Hw) (st : State) : State :=
  let st := init_mcp23018 hw st
  let st := unselect_rows st
  init_cols st

/-- Lines 82-92 of `matrix.c`: the retry step at the head of `matrix_scan_custom`. -/
def scan_retry (hw : Hw) (st : State) : State :=
  if st.mcp23018_status ≠ 0 then
    let st := { st with mcp23018_reset_loop := (st.mcp23018_reset_loop + 1) % 256 }
    if st.mcp23018_reset_loop = 0 then init_mcp23018 hw st else st
  else st

/-- The two row selections at the head of the loop body of `matrix_scan_custom`. -/
def scan_select (hw : Hw) (st : State) (i : Nat) : State :=
  select_row_onboard (select_row_expander hw st i) i

/-- The body of the row loop of `matrix_scan_custom`, on `(state, changed)`. -/
def scan_row (hw : Hw) (acc : State × Bool) (i : Nat) : State × Bool :=
  let st := scan_select hw acc.1 i
  let r := store_raw_matrix_row hw st i
  let changed := acc.2 || r.1
  let st := unselect_rows r.2
  (st, changed)

/-- The first `n` iterations of the row loop of `matrix_scan_custom`. -/
def scan_rows (hw : Hw) (st : State) (n : Nat) : State × Bool :=
  (List.range n).foldl (scan_row hw) (st, false)

def matrix_scan_custom (hw : Hw) (st : State) : State × Bool :=
  let st := scan_retry hw st
  scan_rows hw st MATRIX_ROWS

/-- The LED write; the source has no test of `mcp23018_status` before it. -/
def set_space_led (hw : Hw) (st : State) (is_on : Bool) : State :=
  let val := if is_on then 0 else 1
  let st := bus_chain hw st
    [Event.i2c_start I2C_ADDR_WRITE, Event.i2c_write GPIOA, Event.i2c_write val]
  i2c_stop st

/-! ## `b1t.c` -/

/-- The `led_t` argument of the lock-LED hook (only the field the board reads). -/
structure Led where
  caps_lock : Bool

/-- The framework functions and user hooks `b1t.c` calls, none of which is among
the sources. `get_highest_layer` maps a layer state to the index of its highest
active layer; the `_user` hooks may touch the driver state. -/
structure Framework where
  get_highest_layer : Nat → Nat
  keyboard_pre_init_user : State → State
  led_update_user : State → Led → Bool × State
  layer_state_set_user : State → Nat → Nat × State

def init_led_ports (fw : Framework) (st : State) : State :=
  let st := setPinOutput st F4
  let st := setPinOutput st F5
  fw.keyboard_pre_init_user st

def keyboard_pre_init_kb (fw : Framework) (st : State) : State :=
  let st := init_led_ports fw st
  fw.keyboard_pre_init_user st

def led_update_kb (fw : Framework) (st : State) (led_state : Led) : Bool × State :=
  let r := fw.led_update_user st led_state
  let res := r.1
  let st := r.2
  if res then (res, writePin st F5 (!led_state.caps_lock)) else (res, st)

def layer_state_set_kb (hw : Hw) (fw : Framework) (st : State) (state : Nat) : Nat × State :=
  let st :=
    match fw.get_highest_layer state with
    | 0 => set_space_led hw (writePin st F4 true) false
    | 1 => set_space_led hw (writePin st F4 false) false
    | 2 => set_space_led hw (writePin st F4 true) true
    | _ => set_space_led hw (writePin st F4 false) true
  fw.layer_state_set_user st state

/-! ## Definitions used to state the properties -/

/-- The word `read_cols_expander` computes from the two bytes read. -/
def expander_word (a b : Nat) : Nat :=
  0x00FF &&& not16 (reverseBits ((a &&& 0b11111100) ||| (b >>> 6)))

/-- Level of an on-board pin as the input registers show it when the columns
of row `row` are read (only ports B and F are read by the scanner). -/
def pin_level (hw : Hw) (row : Nat) (pin : Pin) : Bool :=
  match pin.port with
  | Port.B => (hw.PINB row % 256).testBit pin.bit
  | Port.F => (hw.PINF row % 256).testBit pin.bit
  | _ => false

/-- Byte of the expander bank a register address names, out of the pair read. -/
def bank_byte (reg a b : Nat) : Nat := if reg = GPIOA then a else b

/-- The bus operations of `init_mcp23018` in program order, the final stop left out. -/
def init_ops : List Event :=
  [Event.i2c_start I2C_ADDR_WRITE, Event.i2c_write IODIRA, Event.i2c_write 0b11111110,
   Event.i2c_write 0b11100000, Event.i2c_stop,
   Event.i2c_start I2C_ADDR_WRITE, Event.i2c_write GPPUA, Event.i2c_write 0b11111110,
   Event.i2c_write 0b11100000]

/-- Status code the bus gives operation `j` of `init_ops` when the operations
before it have been issued after the trace of `st`. -/
def init_resp (hw : Hw) (st : State) (j : Nat) : Int :=
  hw.i2c_status (st.trace ++ init_ops.take j) (init_ops.getD j Event.i2c_stop)

/-- Index in `init_ops` of the first operation that fails, if any (the stop at
index 4 returns no status). -/
def init_first_failure (hw : Hw) (st : State) : Option Nat :=
  [0, 1, 2, 3, 5, 6, 7, 8].find? (fun j => init_resp hw st j != 0)

/-- The byte `select_row_expander` writes to the row register for row `row`. -/
def row_byte (row : Nat) : Nat := 0xFF &&& not16 (1 <<< expander_row_pins.getD row 0)

/-- Every on-board row pin is configured as an input. -/
def rows_input (g : Pins) : Prop := ∀ p ∈ onboard_row_pins, g.ddr p = false

/-- No on-board row pin other than `r` is configured as an output. -/
def only_output (r : Pin) (g : Pins) : Prop := ∀ p ∈ onboard_row_pins, g.ddr p = true → p = r

/-- At most one on-board row pin is an output driven low. -/
def one_row_low (g : Pins) : Prop :=
  ∀ p ∈ onboard_row_pins, ∀ q ∈ onboard_row_pins,
    g.ddr p = true → g.port p = false → g.ddr q = true → g.port q = false → p = q

/-- The property `P` holds of the pin registers before and after every event of
a sequence run from `g`. -/
def Pins.always (P : Pins → Prop) (g : Pins) : List Event → Prop
  | [] => P g
  | ev :: rest => P g ∧ Pins.always P (g.apply ev) rest

/-- State `s2` is reached from `s1` by the events `evs`: they extend the trace
and the pin registers are those of `s1` after the events. -/
def Reaches (s1 s2 : State) (evs : List Event) : Prop :=
  s2.trace = s1.trace ++ evs ∧ s2.pins = s1.pins.replay evs

/-- State `s2` is reached from `s1` by bus operations alone, the stored rows untouched. -/
def BusOnly (s1 s2 : State) : Prop :=
  s2.raw_matrix = s1.raw_matrix ∧
    ∃ evs, Reaches s1 s2 evs ∧ ∀ e ∈ evs, Event.isBus e = true

/-- The states at the start of successive scan passes. -/
def scan_passes (hw : Hw) (st : State) : Nat → State
  | 0 => st
  | n + 1 => (matrix_scan_custom hw (scan_passes hw st n)).1

/-- The pin events of `select_row_onboard` for a row. -/
def select_events (row : Nat) : List Event :=
  match onboard_row_pins[row]? with
  | some pin => [Event.setPinOutput pin, Event.writePin pin false]
  | none => []

/-- The pin events of `unselect_rows`. -/
def unselect_events : List Event := onboard_row_pins.map Event.setPinInput

/-- An event that does not turn a pin into an output. -/
def Event.keepsInputs : Event → Bool
  | Event.setPinOutput _ => false
  | _ => true

/-- A transport on which every operation succeeds, an expander that reads all
ones (no key down) and on-board columns that read all ones. -/
def hw_idle : Hw :=
  { i2c_status := fun _ _ => 0, i2c_data := fun _ _ => 0xFF,
    PINB := fun _ => 0xFF, PINF := fun _ => 0xFF }

/-- A transport on which every operation succeeds, an expander that reads all
zeros (every expander key down) and on-board columns that read all ones. -/
def hw_pressed : Hw :=
  { i2c_status := fun _ _ => 0, i2c_data := fun _ _ => 0,
    PINB := fun _ => 0xFF, PINF := fun _ => 0xFF }

/-- A transport on which every operation times out. -/
def hw_dead : Hw :=
  { i2c_status := fun _ _ => -2, i2c_data := fun _ _ => 0,
    PINB := fun _ => 0xFF, PINF := fun _ => 0xFF }

/-- The state at program start: the C initial values of the module variables,
every pin a floating input, nothing done yet. -/
def st_boot : State :=
  { i2c_initialized := false, mcp23018_reset_loop := 0, mcp23018_status := 0x20,
    raw_matrix := fun _ => 0, pins := ⟨fun _ => false, fun _ => false⟩, trace := [] }

/-- Framework hooks with the default (empty) user functions and the highest
layer read off a layer bit mask. -/
def fw_default : Framework :=
  { get_highest_layer := fun state =>
      (List.range 32).foldl (fun acc i => if state.testBit i then i else acc) 0,
    keyboard_pre_init_user := fun st => st,
    led_update_user := fun st _ => (true, st),
    layer_state_set_user := fun st state => (state, st) }

/-- A transport whose first operation times out (the expander is not attached
at power-up) and on which every later operation succeeds. -/
def hw_late : Hw :=
  { i2c_status := fun h _ => if h.length = 0 then -2 else 0, i2c_data := fun _ _ => 0xFF,
    PINB := fun _ => 0xFF, PINF := fun _ => 0xFF }

/-- The word the row loop computes for row `i` when the iteration starts in state `s`. -/
def row_word (hw : Hw) (s : State) (i : Nat) : Nat :=
  ((read_cols_expander hw (scan_select hw s i) i).1 <<< 7) ||| read_cols_onboard hw i

/-- A fixed physical state on the bus side: the status and the data the
transport returns for an operation do not depend on what was done before. -/
def Stateless (hw : Hw) : Prop :=
  ∀ h1 h2 : List Event, (∀ op, hw.i2c_status h1 op = hw.i2c_status h2 op) ∧
    ∀ k, hw.i2c_data h1 k = hw.i2c_data h2 k

/-- Two states agree on whether the link is ok. -/
def SameLink (a b : State) : Prop := a.mcp23018_status = 0 ↔ b.mcp23018_status = 0

/-- The boot state with the transport open, the link marked failed and the retry
counter two passes away from wrapping. -/
def st_late : State := { st_boot with i2c_initialized := true, mcp23018_reset_loop := 254 }

/-! ## Bit-level lemmas -/

set_option maxRecDepth 100000 in
theorem reverseBits_testBit : ∀ n < 256, ∀ i < 8, (reverseBits n).testBit i = n.testBit (7 - i) := by
  decide

example : reverseBits 0b11010010 = 0b01001011 := by decide

theorem not16_testBit (x i : Nat) : (not16 x).testBit i = (decide (i < 16) && !x.testBit i) := by
  have h1 : not16 x = (2 ^ 16 - 1) ^^^ (x % 2 ^ 16) := rfl
  rw [h1, Nat.testBit_xor, Nat.testBit_two_pow_sub_one, Nat.testBit_mod_two_pow]
  by_cases h : i < 16 <;> simp [h]

theorem mod256_testBit (x i : Nat) : (x % 256).testBit i = (decide (i < 8) && x.testBit i) := by
  have h1 : x % 256 = x % 2 ^ 8 := rfl
  rw [h1, Nat.testBit_mod_two_pow]

theorem one_testBit (i : Nat) : Nat.testBit 1 i = decide (i = 0) := by
  have h1 : (1 : Nat) = 2 ^ 0 := rfl
  rw [h1, Nat.testBit_two_pow]
  simp [eq_comm]

theorem testBit_0xFF80 (i : Nat) : Nat.testBit 0xFF80 i = (decide (7 ≤ i) && decide (i < 16)) := by
  have h1 : (0xFF80 : Nat) = (2 ^ 9 - 1) <<< 7 := rfl
  rw [h1, Nat.testBit_shiftLeft, Nat.testBit_two_pow_sub_one]
  by_cases h : 7 ≤ i <;> simp [h] <;> omega

theorem read_cols_onboard_testBit (hw : Hw) (row i : Nat) :
    (read_cols_onboard hw row).testBit i =
      (match i with
       | 0 => !(hw.PINB row).testBit 5
       | 1 => !(hw.PINB row).testBit 4
       | 2 => !(hw.PINB row).testBit 6
       | 3 => !(hw.PINB row).testBit 2
       | 4 => !(hw.PINB row).testBit 3
       | 5 => !(hw.PINB row).testBit 1
       | 6 => !(hw.PINF row).testBit 7
       | _ => false) := by
  unfold read_cols_onboard
  simp only [not16_testBit, Nat.testBit_or, Nat.testBit_and, Nat.testBit_shiftRight,
    Nat.testBit_shiftLeft, mod256_testBit, one_testBit, testBit_0xFF80]
  rcases Nat.lt_or_ge i 7 with h | h
  · interval_cases i <;> simp only [] <;> simp
  · have : ¬ (i < 7) := by omega
    rcases i with _ | _ | _ | _ | _ | _ | _ | i
    all_goals first | omega | skip
    by_cases h16 : i + 7 < 16 <;> simp [h16]

theorem testBit_0xFC (i : Nat) : Nat.testBit 0b11111100 i = (decide (2 ≤ i) && decide (i < 8)) := by
  have h1 : (0b11111100 : Nat) = (2 ^ 6 - 1) <<< 2 := rfl
  rw [h1, Nat.testBit_shiftLeft, Nat.testBit_two_pow_sub_one]
  by_cases h : 2 ≤ i <;> simp [h] <;> omega

theorem testBit_0xFF (i : Nat) : Nat.testBit 0x00FF i = decide (i < 8) := by
  have h1 : (0x00FF : Nat) = 2 ^ 8 - 1 := rfl
  rw [h1, Nat.testBit_two_pow_sub_one]

theorem expander_arg_lt (a b : Nat) (hb : b < 256) : ((a &&& 0b11111100) ||| (b >>> 6)) < 256 := by
  have h1 : a &&& 0b11111100 < 2 ^ 8 := Nat.and_lt_two_pow a (by norm_num)
  have h2 : b >>> 6 < 2 ^ 8 := by
    rw [Nat.shiftRight_eq_div_pow]
    have : b / 2 ^ 6 ≤ b := Nat.div_le_self _ _
    omega
  exact Nat.or_lt_two_pow h1 h2

theorem expander_word_testBit (a b : Nat) (hb : b < 256) (i : Nat) :
    (expander_word a b).testBit i =
      (match i with
       | 0 => !a.testBit 7
       | 1 => !a.testBit 6
       | 2 => !a.testBit 5
       | 3 => !a.testBit 4
       | 4 => !a.testBit 3
       | 5 => !a.testBit 2
       | 6 => !b.testBit 7
       | 7 => !b.testBit 6
       | _ => false) := by
  unfold expander_word
  rw [Nat.testBit_and, testBit_0xFF, not16_testBit]
  rcases Nat.lt_or_ge i 8 with h | h
  · rw [reverseBits_testBit _ (expander_arg_lt a b hb) i h]
    simp only [Nat.testBit_or, Nat.testBit_and, Nat.testBit_shiftRight, testBit_0xFC]
    have hb8 : b.testBit 8 = false := Nat.testBit_lt_two_pow (by omega : b < 2 ^ 8)
    have hb9 : b.testBit 9 = false := Nat.testBit_lt_two_pow (by omega : b < 2 ^ 9)
    have hb10 : b.testBit 10 = false := Nat.testBit_lt_two_pow (by omega : b < 2 ^ 10)
    have hb11 : b.testBit 11 = false := Nat.testBit_lt_two_pow (by omega : b < 2 ^ 11)
    have hb12 : b.testBit 12 = false := Nat.testBit_lt_two_pow (by omega : b < 2 ^ 12)
    have hb13 : b.testBit 13 = false := Nat.testBit_lt_two_pow (by omega : b < 2 ^ 13)
    interval_cases i <;> simp [hb8, hb9, hb10, hb11, hb12, hb13]
  · have : ¬ (i < 8) := by omega
    rcases i with _ | _ | _ | _ | _ | _ | _ | _ | i
    all_goals first | omega | skip
    simp

/-! ## Reading the columns -/

theorem read_cols_onboard_lt (hw : Hw) (row : Nat) : read_cols_onboard hw row < 2 ^ 7 := by
  apply Nat.lt_pow_two_of_testBit
  intro i hi
  rw [read_cols_onboard_testBit]
  rcases i with _ | _ | _ | _ | _ | _ | _ | i
  all_goals first | omega | rfl

theorem expander_word_lt (a b : Nat) (hb : b < 256) : expander_word a b < 2 ^ 8 := by
  apply Nat.lt_pow_two_of_testBit
  intro i hi
  rw [expander_word_testBit a b hb]
  rcases i with _ | _ | _ | _ | _ | _ | _ | _ | i
  all_goals first | omega | rfl

theorem read_cols_expander_le (hw : Hw) (st : State) (row : Nat) :
    (read_cols_expander hw st row).1 ≤ 0xFF := by
  have h := expander_word_lt (hw.i2c_data st.trace 0 % 256) (hw.i2c_data st.trace 1 % 256)
    (Nat.mod_lt _ (by norm_num))
  unfold expander_word at h
  simp only [read_cols_expander, i2c_readReg, set_status]
  split_ifs
  · simp
  · simp
  · show _ ≤ 255
    omega

theorem read_cols_expander_ok (hw : Hw) (st : State) (row : Nat)
    (hok : st.mcp23018_status = 0)
    (hread : hw.i2c_status st.trace (Event.i2c_readReg I2C_ADDR_WRITE GPIOA 2) = 0) :
    (read_cols_expander hw st row).1 =
      expander_word (hw.i2c_data st.trace 0 % 256) (hw.i2c_data st.trace 1 % 256) := by
  simp [read_cols_expander, hok, set_status, i2c_readReg, hread, expander_word]

theorem store_raw_matrix_row_word (hw : Hw) (st : State) (row : Nat) :
    (store_raw_matrix_row hw st row).2.raw_matrix row =
      ((read_cols_expander hw st row).1 <<< 7) ||| read_cols_onboard hw row := by
  have he := read_cols_expander_le hw st row
  have ho := read_cols_onboard_lt hw row
  have hlt : (((read_cols_expander hw st row).1 <<< 7) ||| read_cols_onboard hw row) < 2 ^ 16 := by
    apply Nat.or_lt_two_pow
    · rw [Nat.shiftLeft_eq]; omega
    · omega
  have hmod : (((read_cols_expander hw st row).1 <<< 7) ||| read_cols_onboard hw row) % 0x10000
      = ((read_cols_expander hw st row).1 <<< 7) ||| read_cols_onboard hw row :=
    Nat.mod_eq_of_lt hlt
  unfold store_raw_matrix_row
  simp only [MATRIX_COLS_ONBOARD, hmod]
  split_ifs with h
  · simp
  · simpa using h

/-- C1: the word `store_raw_matrix_row` stores is `(e << 7) | read_cols_onboard`,
where `e <= 0xFF` is what `read_cols_expander` returned; the on-board word has
bits 7 and above zero and bit `c < 7` is the inverse of the level of
`onboard_col_pins[c]`; bits 0..6 of the stored word are the on-board columns,
bits 7..14 the expander columns, the fields do not overlap and bit 15 is zero. -/
theorem store_raw_matrix_row_layout (hw : Hw) (st : State) (row : Nat) :
    (read_cols_expander hw st row).1 ≤ 0xFF ∧
    (store_raw_matrix_row hw st row).2.raw_matrix row =
      (((read_cols_expander hw st row).1 <<< 7) ||| read_cols_onboard hw row) ∧
    (∀ i, 7 ≤ i → (read_cols_onboard hw row).testBit i = false) ∧
    (∀ c, c < 7 → (read_cols_onboard hw row).testBit c =
        !(pin_level hw row (onboard_col_pins.getD c F7))) ∧
    (∀ c, c < 7 → ((store_raw_matrix_row hw st row).2.raw_matrix row).testBit c =
        (read_cols_onboard hw row).testBit c) ∧
    (∀ j, j < 8 → ((store_raw_matrix_row hw st row).2.raw_matrix row).testBit (7 + j) =
        ((read_cols_expander hw st row).1).testBit j) ∧
    (((read_cols_expander hw st row).1 <<< 7) &&& read_cols_onboard hw row = 0) ∧
    ((store_raw_matrix_row hw st row).2.raw_matrix row).testBit 15 = false := by
  have he := read_cols_expander_le hw st row
  have hhigh : ∀ i, 7 ≤ i → (read_cols_onboard hw row).testBit i = false := by
    intro i hi
    exact Nat.testBit_lt_two_pow
      (lt_of_lt_of_le (read_cols_onboard_lt hw row) (Nat.pow_le_pow_right (by norm_num) hi))
  refine ⟨he, store_raw_matrix_row_word hw st row, hhigh, ?_, ?_, ?_, ?_, ?_⟩
  · intro c hc
    rw [read_cols_onboard_testBit]
    interval_cases c <;>
      simp [onboard_col_pins, pin_level, B5, B4, B6, B2, B3, B1, F7, mod256_testBit]
  · intro c hc
    rw [store_raw_matrix_row_word, Nat.testBit_or, Nat.testBit_shiftLeft]
    have : ¬ (c ≥ 7) := by omega
    simp [this]
  · intro j hj
    rw [store_raw_matrix_row_word, Nat.testBit_or, Nat.testBit_shiftLeft, hhigh (7 + j) (by omega)]
    simp
  · apply Nat.eq_of_testBit_eq
    intro i
    rw [Nat.testBit_and, Nat.testBit_shiftLeft, Nat.zero_testBit]
    rcases Nat.lt_or_ge i 7 with h | h
    · have : ¬ (i ≥ 7) := by omega
      simp [this]
    · simp [hhigh i h]
  · rw [store_raw_matrix_row_word, Nat.testBit_or, Nat.testBit_shiftLeft, hhigh 15 (by omega)]
    have h8 : ((read_cols_expander hw st row).1).testBit 8 = false :=
      Nat.testBit_lt_two_pow (by omega : (read_cols_expander hw st row).1 < 2 ^ 8)
    simp [h8]

/-- C2: with the link ok and the register read succeeding, `read_cols_expander`
returns a word with bits 8 and above zero whose bit `c < 8` is set exactly when
the pin of column `c` in the wiring table reads 0; the word is the same for any
two reads that agree on GPIOA bits 2..7 and GPIOB bits 6..7. -/
theorem read_cols_expander_wiring (hw : Hw) (st : State) (row : Nat)
    (hok : st.mcp23018_status = 0)
    (hread : hw.i2c_status st.trace (Event.i2c_readReg I2C_ADDR_WRITE GPIOA 2) = 0) :
    (∀ i, 8 ≤ i → ((read_cols_expander hw st row).1).testBit i = false) ∧
    (∀ c, c < 8 → ((read_cols_expander hw st row).1).testBit c =
        !(bank_byte (expander_col_registers.getD c 0)
            (hw.i2c_data st.trace 0 % 256) (hw.i2c_data st.trace 1 % 256)).testBit
          (expander_col_pins.getD c 0)) ∧
    (∀ (hw2 : Hw) (st2 : State) (row2 : Nat), st2.mcp23018_status = 0 →
        hw2.i2c_status st2.trace (Event.i2c_readReg I2C_ADDR_WRITE GPIOA 2) = 0 →
        (∀ k, 2 ≤ k → k < 8 →
          (hw2.i2c_data st2.trace 0 % 256).testBit k = (hw.i2c_data st.trace 0 % 256).testBit k) →
        (∀ k, 6 ≤ k → k < 8 →
          (hw2.i2c_data st2.trace 1 % 256).testBit k = (hw.i2c_data st.trace 1 % 256).testBit k) →
        (read_cols_expander hw2 st2 row2).1 = (read_cols_expander hw st row).1) := by
  have hb : hw.i2c_data st.trace 1 % 256 < 256 := Nat.mod_lt _ (by norm_num)
  refine ⟨?_, ?_, ?_⟩
  · intro i hi
    exact Nat.testBit_lt_two_pow (lt_of_le_of_lt (read_cols_expander_le hw st row)
      (lt_of_lt_of_le (by norm_num : 0xFF < 2 ^ 8) (Nat.pow_le_pow_right (by norm_num) hi)))
  · intro c hc
    rw [read_cols_expander_ok hw st row hok hread, expander_word_testBit _ _ hb]
    interval_cases c <;>
      simp [expander_col_registers, expander_col_pins, bank_byte, GPIOA, GPIOB]
  · intro hw2 st2 row2 hok2 hread2 ha hb2
    have hb' : hw2.i2c_data st2.trace 1 % 256 < 256 := Nat.mod_lt _ (by norm_num)
    rw [read_cols_expander_ok hw st row hok hread, read_cols_expander_ok hw2 st2 row2 hok2 hread2]
    apply Nat.eq_of_testBit_eq
    intro i
    rw [expander_word_testBit _ _ hb, expander_word_testBit _ _ hb']
    have a7 := ha 7 (by norm_num) (by norm_num)
    have a6 := ha 6 (by norm_num) (by norm_num)
    have a5 := ha 5 (by norm_num) (by norm_num)
    have a4 := ha 4 (by norm_num) (by norm_num)
    have a3 := ha 3 (by norm_num) (by norm_num)
    have a2 := ha 2 (by norm_num) (by norm_num)
    have b7 := hb2 7 (by norm_num) (by norm_num)
    have b6 := hb2 6 (by norm_num) (by norm_num)
    rcases i with _ | _ | _ | _ | _ | _ | _ | _ | i
    · simp only [a7]
    · simp only [a6]
    · simp only [a5]
    · simp only [a4]
    · simp only [a3]
    · simp only [a2]
    · simp only [b7]
    · simp only [b6]
    · show false = false
      rfl

/-- C2 on the state a successful `init_mcp23018` leaves, with every expander
pin reading 0: all eight columns are reported pressed. -/
theorem read_cols_expander_wiring_witness :
    (init_mcp23018 hw_pressed st_boot).mcp23018_status = 0 ∧
      ∀ c, c < 8 →
        ((read_cols_expander hw_pressed (init_mcp23018 hw_pressed st_boot) 0).1).testBit c =
          !(bank_byte (expander_col_registers.getD c 0)
              (hw_pressed.i2c_data (init_mcp23018 hw_pressed st_boot).trace 0 % 256)
              (hw_pressed.i2c_data (init_mcp23018 hw_pressed st_boot).trace 1 % 256)).testBit
            (expander_col_pins.getD c 0) :=
  ⟨rfl, (read_cols_expander_wiring hw_pressed (init_mcp23018 hw_pressed st_boot) 0 rfl rfl).2.1⟩

/-! ## Field-wise behaviour of the primitives -/

@[simp] theorem bus_call_trace (hw : Hw) (st : State) (op : Event) :
    (bus_call hw st op).trace = st.trace ++ [op] := rfl
@[simp] theorem bus_call_status (hw : Hw) (st : State) (op : Event) :
    (bus_call hw st op).mcp23018_status = hw.i2c_status st.trace op := rfl
@[simp] theorem bus_call_pins (hw : Hw) (st : State) (op : Event) :
    (bus_call hw st op).pins = st.pins := rfl
@[simp] theorem bus_call_raw_matrix (hw : Hw) (st : State) (op : Event) :
    (bus_call hw st op).raw_matrix = st.raw_matrix := rfl
@[simp] theorem bus_call_reset_loop (hw : Hw) (st : State) (op : Event) :
    (bus_call hw st op).mcp23018_reset_loop = st.mcp23018_reset_loop := rfl
@[simp] theorem bus_call_initialized (hw : Hw) (st : State) (op : Event) :
    (bus_call hw st op).i2c_initialized = st.i2c_initialized := rfl

@[simp] theorem i2c_stop_trace (st : State) : (i2c_stop st).trace = st.trace ++ [Event.i2c_stop] := rfl
@[simp] theorem i2c_stop_status (st : State) : (i2c_stop st).mcp23018_status = st.mcp23018_status := rfl
@[simp] theorem i2c_stop_pins (st : State) : (i2c_stop st).pins = st.pins := rfl
@[simp] theorem i2c_stop_raw_matrix (st : State) : (i2c_stop st).raw_matrix = st.raw_matrix := rfl
@[simp] theorem i2c_stop_reset_loop (st : State) :
    (i2c_stop st).mcp23018_reset_loop = st.mcp23018_reset_loop := rfl
@[simp] theorem i2c_stop_initialized (st : State) :
    (i2c_stop st).i2c_initialized = st.i2c_initialized := rfl

@[simp] theorem open_transport_trace (st : State) : (open_transport st).trace = st.trace := by
  unfold open_transport; split <;> rfl
@[simp] theorem open_transport_status (st : State) :
    (open_transport st).mcp23018_status = st.mcp23018_status := by
  unfold open_transport; split <;> rfl
@[simp] theorem open_transport_pins (st : State) : (open_transport st).pins = st.pins := by
  unfold open_transport; split <;> rfl
@[simp] theorem open_transport_raw_matrix (st : State) :
    (open_transport st).raw_matrix = st.raw_matrix := by
  unfold open_transport; split <;> rfl
@[simp] theorem open_transport_reset_loop (st : State) :
    (open_transport st).mcp23018_reset_loop = st.mcp23018_reset_loop := by
  unfold open_transport; split <;> rfl

@[simp] theorem bus_chain_nil (hw : Hw) (st : State) : bus_chain hw st [] = st := rfl

theorem bus_chain_cons (hw : Hw) (st : State) (op : Event) (rest : List Event) :
    bus_chain hw st (op :: rest) =
      if (bus_call hw st op).mcp23018_status ≠ 0 then bus_call hw st op
      else bus_chain hw (bus_call hw st op) rest := rfl

theorem bus_chain_cons_fail (hw : Hw) (st : State) (op : Event) (rest : List Event)
    (h : hw.i2c_status st.trace op ≠ 0) :
    bus_chain hw st (op :: rest) = bus_call hw st op := by
  rw [bus_chain_cons, if_pos (by simpa using h)]

theorem bus_chain_cons_ok (hw : Hw) (st : State) (op : Event) (rest : List Event)
    (h : hw.i2c_status st.trace op = 0) :
    bus_chain hw st (op :: rest) = bus_chain hw (bus_call hw st op) rest := by
  rw [bus_chain_cons, if_neg (by simpa using h)]

/-! ## Pin registers along a sequence of events -/

theorem replay_append (g : Pins) (a b : List Event) :
    g.replay (a ++ b) = (g.replay a).replay b := by
  induction a generalizing g with
  | nil => rfl
  | cons e a ih => exact ih (g.apply e)

theorem apply_of_isBus (g : Pins) (e : Event) (h : e.isBus = true) : g.apply e = g := by
  cases e <;> first | rfl | cases h

theorem replay_of_isBus (g : Pins) (evs : List Event) (h : ∀ e ∈ evs, Event.isBus e = true) :
    g.replay evs = g := by
  induction evs with
  | nil => rfl
  | cons e evs ih =>
    show (g.apply e).replay evs = g
    rw [apply_of_isBus g e (h e (List.mem_cons_self _ _))]
    exact ih (fun x hx => h x (List.mem_cons_of_mem _ hx))

theorem always_head (P : Pins → Prop) (g : Pins) (evs : List Event)
    (h : Pins.always P g evs) : P g := by
  cases evs with
  | nil => exact h
  | cons e evs => exact h.1

theorem always_append (P : Pins → Prop) (g : Pins) (a b : List Event) :
    Pins.always P g (a ++ b) ↔ (Pins.always P g a ∧ Pins.always P (g.replay a) b) := by
  induction a generalizing g with
  | nil =>
    constructor
    · intro h
      exact ⟨always_head P g b h, h⟩
    · intro h
      exact h.2
  | cons e a ih =>
    show (P g ∧ Pins.always P (g.apply e) (a ++ b)) ↔
      ((P g ∧ Pins.always P (g.apply e) a) ∧ Pins.always P ((g.apply e).replay a) b)
    rw [ih (g.apply e)]
    tauto

theorem always_of_isBus (P : Pins → Prop) (g : Pins) (evs : List Event)
    (h : ∀ e ∈ evs, Event.isBus e = true) (hP : P g) : Pins.always P g evs := by
  induction evs with
  | nil => exact hP
  | cons e evs ih =>
    refine ⟨hP, ?_⟩
    rw [apply_of_isBus g e (h e (List.mem_cons_self _ _))]
    exact ih (fun x hx => h x (List.mem_cons_of_mem _ hx))

theorem always_mono (P Q : Pins → Prop) (hPQ : ∀ g, P g → Q g) (g : Pins) (evs : List Event)
    (h : Pins.always P g evs) : Pins.always Q g evs := by
  induction evs generalizing g with
  | nil => exact hPQ g h
  | cons e evs ih => exact ⟨hPQ g h.1, ih (g.apply e) h.2⟩

theorem always_initial_segment (P : Pins → Prop) (g : Pins) (evs : List Event)
    (h : Pins.always P g evs) (pre : List Event) (hpre : pre <+: evs) : P (g.replay pre) := by
  obtain ⟨suf, rfl⟩ := hpre
  exact always_head P _ suf ((always_append P g pre suf).1 h).2

/-! ## Reachability -/

theorem Reaches.nil (s : State) : Reaches s s [] := by
  constructor
  · simp
  · rfl

theorem Reaches.append {s1 s2 s3 : State} {a b : List Event}
    (h1 : Reaches s1 s2 a) (h2 : Reaches s2 s3 b) : Reaches s1 s3 (a ++ b) := by
  constructor
  · rw [h2.1, h1.1, List.append_assoc]
  · rw [h2.2, h1.2, replay_append]

theorem BusOnly.same (s : State) : BusOnly s s :=
  ⟨rfl, [], Reaches.nil s, by simp⟩

theorem BusOnly.andThen {s1 s2 s3 : State} (h1 : BusOnly s1 s2) (h2 : BusOnly s2 s3) :
    BusOnly s1 s3 := by
  obtain ⟨r1, a, ha, hba⟩ := h1
  obtain ⟨r2, b, hb, hbb⟩ := h2
  refine ⟨r2.trans r1, a ++ b, ha.append hb, ?_⟩
  intro e he
  rcases List.mem_append.1 he with h | h
  · exact hba e h
  · exact hbb e h

theorem BusOnly.pins_eq {s1 s2 : State} (h : BusOnly s1 s2) : s2.pins = s1.pins := by
  obtain ⟨_, evs, hr, hb⟩ := h
  rw [hr.2, replay_of_isBus _ _ hb]

theorem bus_call_busOnly (hw : Hw) (st : State) (op : Event) (hop : op.isBus = true) :
    BusOnly st (bus_call hw st op) := by
  refine ⟨rfl, [op], ⟨rfl, ?_⟩, by simpa using hop⟩
  show st.pins = (st.pins.apply op).replay []
  rw [apply_of_isBus _ _ hop]
  rfl

theorem i2c_stop_busOnly (st : State) : BusOnly st (i2c_stop st) :=
  ⟨rfl, [Event.i2c_stop], ⟨rfl, rfl⟩, by simp [Event.isBus]⟩

theorem bus_chain_busOnly (hw : Hw) (st : State) (ops : List Event)
    (hops : ∀ e ∈ ops, Event.isBus e = true) : BusOnly st (bus_chain hw st ops) := by
  induction ops generalizing st with
  | nil => exact BusOnly.same st
  | cons op rest ih =>
    have h1 := bus_call_busOnly hw st op (hops op (List.mem_cons_self _ _))
    rw [bus_chain_cons]
    split
    · exact h1
    · exact h1.andThen (ih _ (fun e he => hops e (List.mem_cons_of_mem _ he)))

theorem bus_chain_reset_loop (hw : Hw) (st : State) (ops : List Event) :
    (bus_chain hw st ops).mcp23018_reset_loop = st.mcp23018_reset_loop := by
  induction ops generalizing st with
  | nil => rfl
  | cons op rest ih =>
    rw [bus_chain_cons]
    split
    · rfl
    · rw [ih]; rfl

theorem open_transport_busOnly (st : State) : BusOnly st (open_transport st) := by
  refine ⟨by simp, [], ⟨by simp, by simp [Pins.replay]⟩, by simp⟩

theorem init_mcp23018_busOnly (hw : Hw) (st : State) : BusOnly st (init_mcp23018 hw st) := by
  have h0 : BusOnly st (open_transport { st with mcp23018_status := 0x20 }) :=
    @BusOnly.andThen st { st with mcp23018_status := 0x20 } _
      ⟨rfl, [], ⟨by simp, rfl⟩, by simp⟩ (open_transport_busOnly _)
  unfold init_mcp23018
  simp only []
  split
  · exact (h0.andThen (bus_chain_busOnly hw _ _ (by simp [Event.isBus]))).andThen (i2c_stop_busOnly _)
  · exact ((((h0.andThen (bus_chain_busOnly hw _ _ (by simp [Event.isBus]))).andThen
      (i2c_stop_busOnly _)).andThen (bus_chain_busOnly hw _ _ (by simp [Event.isBus]))).andThen
      (i2c_stop_busOnly _))

theorem init_mcp23018_reset_loop (hw : Hw) (st : State) :
    (init_mcp23018 hw st).mcp23018_reset_loop = st.mcp23018_reset_loop := by
  unfold init_mcp23018
  simp only []
  split <;> simp [bus_chain_reset_loop]

theorem select_row_expander_busOnly (hw : Hw) (st : State) (row : Nat) :
    BusOnly st (select_row_expander hw st row) := by
  unfold select_row_expander
  split
  · exact (bus_chain_busOnly hw _ _ (by simp [Event.isBus])).andThen (i2c_stop_busOnly _)
  · exact BusOnly.same st

theorem select_row_expander_reset_loop (hw : Hw) (st : State) (row : Nat) :
    (select_row_expander hw st row).mcp23018_reset_loop = st.mcp23018_reset_loop := by
  unfold select_row_expander
  split <;> simp [bus_chain_reset_loop]

theorem set_space_led_busOnly (hw : Hw) (st : State) (is_on : Bool) :
    BusOnly st (set_space_led hw st is_on) := by
  unfold set_space_led
  exact (bus_chain_busOnly hw _ _ (by simp [Event.isBus])).andThen (i2c_stop_busOnly _)

theorem read_cols_expander_busOnly (hw : Hw) (st : State) (row : Nat) :
    BusOnly st (read_cols_expander hw st row).2 := by
  have h1 : BusOnly st (set_status ((i2c_readReg hw st I2C_ADDR_WRITE GPIOA 2 I2C_TIMEOUT).1,
      (i2c_readReg hw st I2C_ADDR_WRITE GPIOA 2 I2C_TIMEOUT).2.2)) :=
    ⟨rfl, [Event.i2c_readReg I2C_ADDR_WRITE GPIOA 2], ⟨rfl, rfl⟩, by simp [Event.isBus]⟩
  unfold read_cols_expander
  split
  · exact BusOnly.same st
  · simp only []
    split
    · exact h1
    · exact h1

theorem read_cols_expander_reset_loop (hw : Hw) (st : State) (row : Nat) :
    (read_cols_expander hw st row).2.mcp23018_reset_loop = st.mcp23018_reset_loop := by
  unfold read_cols_expander
  split
  · rfl
  · simp only []
    split <;> rfl

/-! ## The local pin driver -/

theorem pin_write_reaches (st : State) (ev : Event) : Reaches st (pin_write st ev) [ev] :=
  ⟨rfl, rfl⟩

theorem foldl_setPinInput_reaches (pins : List Pin) (st : State) :
    Reaches st (pins.foldl setPinInput st) (pins.map Event.setPinInput) ∧
      (pins.foldl setPinInput st).raw_matrix = st.raw_matrix ∧
      (pins.foldl setPinInput st).mcp23018_status = st.mcp23018_status ∧
      (pins.foldl setPinInput st).mcp23018_reset_loop = st.mcp23018_reset_loop := by
  induction pins generalizing st with
  | nil => exact ⟨Reaches.nil st, rfl, rfl, rfl⟩
  | cons p pins ih =>
    obtain ⟨h1, h2, h3, h4⟩ := ih (setPinInput st p)
    refine ⟨?_, ?_, ?_, ?_⟩
    · exact (pin_write_reaches st (Event.setPinInput p)).append h1
    · rw [List.foldl_cons, h2]; rfl
    · rw [List.foldl_cons, h3]; rfl
    · rw [List.foldl_cons, h4]; rfl

theorem unselect_rows_reaches (st : State) : Reaches st (unselect_rows st) unselect_events :=
  (foldl_setPinInput_reaches onboard_row_pins st).1

theorem unselect_rows_raw_matrix (st : State) : (unselect_rows st).raw_matrix = st.raw_matrix :=
  (foldl_setPinInput_reaches onboard_row_pins st).2.1

theorem unselect_rows_status (st : State) :
    (unselect_rows st).mcp23018_status = st.mcp23018_status :=
  (foldl_setPinInput_reaches onboard_row_pins st).2.2.1

theorem unselect_rows_reset_loop (st : State) :
    (unselect_rows st).mcp23018_reset_loop = st.mcp23018_reset_loop :=
  (foldl_setPinInput_reaches onboard_row_pins st).2.2.2

theorem unselect_rows_input (st : State) : rows_input (unselect_rows st).pins := by
  rw [(unselect_rows_reaches st).2]
  intro p hp
  simp only [onboard_row_pins, List.mem_cons, List.mem_singleton, List.not_mem_nil, or_false] at hp
  rcases hp with rfl | rfl | rfl | rfl | rfl <;>
    simp [unselect_events, onboard_row_pins, Pins.replay, Pins.apply, F4, F5, F6, C6, D7]

theorem select_row_onboard_reaches (st : State) (row : Nat) :
    Reaches st (select_row_onboard st row) (select_events row) := by
  unfold select_row_onboard select_events
  split
  · exact (pin_write_reaches st _).append (pin_write_reaches _ _)
  · exact Reaches.nil st

theorem select_row_onboard_raw_matrix (st : State) (row : Nat) :
    (select_row_onboard st row).raw_matrix = st.raw_matrix := by
  unfold select_row_onboard
  split <;> rfl

theorem select_row_onboard_status (st : State) (row : Nat) :
    (select_row_onboard st row).mcp23018_status = st.mcp23018_status := by
  unfold select_row_onboard
  split <;> rfl

theorem select_row_onboard_reset_loop (st : State) (row : Nat) :
    (select_row_onboard st row).mcp23018_reset_loop = st.mcp23018_reset_loop := by
  unfold select_row_onboard
  split <;> rfl

/-- After `select_row_onboard` the pin of the row is an output driven low. -/
theorem select_row_onboard_low (st : State) (row : Nat) (pin : Pin)
    (h : onboard_row_pins[row]? = some pin) :
    (select_row_onboard st row).pins.ddr pin = true ∧
      (select_row_onboard st row).pins.port pin = false := by
  unfold select_row_onboard
  rw [h]
  simp [writePinLow, writePin, setPinOutput, pin_write, Pins.apply]

theorem rows_input_only_output (r : Pin) (g : Pins) (h : rows_input g) : only_output r g := by
  intro p hp hd
  rw [h p hp] at hd
  cases hd

theorem only_output_one_row_low (r : Pin) (g : Pins) (h : only_output r g) : one_row_low g := by
  intro p hp q hq hdp _ hdq _
  rw [h p hp hdp, h q hq hdq]

theorem rows_input_one_row_low (g : Pins) (h : rows_input g) : one_row_low g :=
  only_output_one_row_low F4 g (rows_input_only_output F4 g h)

theorem only_output_setPinOutput (r : Pin) (g : Pins) (h : rows_input g) :
    only_output r (g.apply (Event.setPinOutput r)) := by
  intro p hp hd
  by_cases hpr : p = r
  · exact hpr
  · simp only [Pins.apply, if_neg hpr] at hd
    rw [h p hp] at hd
    cases hd

theorem only_output_keepsInputs (r : Pin) (g : Pins) (e : Event) (he : e.keepsInputs = true)
    (h : only_output r g) : only_output r (g.apply e) := by
  intro p hp hd
  apply h p hp
  cases e with
  | setPinOutput q => cases he
  | setPinInput q =>
    simp only [Pins.apply] at hd
    split at hd
    · cases hd
    · exact hd
  | setPinInputHigh q =>
    simp only [Pins.apply] at hd
    split at hd
    · cases hd
    · exact hd
  | writePin q v => exact hd
  | i2c_start a => exact hd
  | i2c_write d => exact hd
  | i2c_stop => exact hd
  | i2c_readReg a b c => exact hd

theorem always_only_output (r : Pin) (g : Pins) (evs : List Event)
    (hevs : ∀ e ∈ evs, Event.keepsInputs e = true) (h : only_output r g) :
    Pins.always (only_output r) g evs := by
  induction evs generalizing g with
  | nil => exact h
  | cons e evs ih =>
    refine ⟨h, ih _ (fun x hx => hevs x (List.mem_cons_of_mem _ hx)) ?_⟩
    exact only_output_keepsInputs r g e (hevs e (List.mem_cons_self _ _)) h

theorem isBus_keepsInputs (e : Event) (h : e.isBus = true) : e.keepsInputs = true := by
  cases e <;> first | rfl | cases h

theorem unselect_events_keepsInputs : ∀ e ∈ unselect_events, Event.keepsInputs e = true := by
  simp [unselect_events, onboard_row_pins, Event.keepsInputs]

/-- The events of one row of the scan, run from pins whose rows are all
inputs, never leave two row pins driven low. -/
theorem always_row_events (g : Pins) (row : Nat) (busA busB : List Event)
    (hA : ∀ e ∈ busA, Event.isBus e = true) (hB : ∀ e ∈ busB, Event.isBus e = true)
    (hg : rows_input g) :
    Pins.always one_row_low g (busA ++ (select_events row ++ (busB ++ unselect_events))) := by
  rw [always_append, replay_of_isBus g busA hA]
  refine ⟨always_of_isBus _ g busA hA (rows_input_one_row_low g hg), ?_⟩
  have hrest : ∀ e ∈ busB ++ unselect_events, Event.keepsInputs e = true := by
    intro e he
    rcases List.mem_append.1 he with h | h
    · exact isBus_keepsInputs e (hB e h)
    · exact unselect_events_keepsInputs e h
  unfold select_events
  split
  · rename_i pin _
    refine ⟨rows_input_one_row_low g hg, ?_⟩
    apply always_mono (only_output pin) one_row_low (only_output_one_row_low pin)
    apply always_only_output pin
    · intro e he
      rcases List.mem_cons.1 he with h | h
      · rw [h]; rfl
      · exact hrest e h
    · exact only_output_setPinOutput pin g hg
  · apply always_mono (only_output F4) one_row_low (only_output_one_row_low F4)
    exact always_only_output F4 g _ hrest (rows_input_only_output F4 g hg)

/-! ## The row loop -/

theorem store_raw_matrix_row_trace (hw : Hw) (st : State) (row : Nat) :
    (store_raw_matrix_row hw st row).2.trace = (read_cols_expander hw st row).2.trace := by
  unfold store_raw_matrix_row
  simp only []
  split <;> rfl

theorem store_raw_matrix_row_pins (hw : Hw) (st : State) (row : Nat) :
    (store_raw_matrix_row hw st row).2.pins = (read_cols_expander hw st row).2.pins := by
  unfold store_raw_matrix_row
  simp only []
  split <;> rfl

theorem store_raw_matrix_row_status (hw : Hw) (st : State) (row : Nat) :
    (store_raw_matrix_row hw st row).2.mcp23018_status =
      (read_cols_expander hw st row).2.mcp23018_status := by
  unfold store_raw_matrix_row
  simp only []
  split <;> rfl

theorem store_raw_matrix_row_reset_loop (hw : Hw) (st : State) (row : Nat) :
    (store_raw_matrix_row hw st row).2.mcp23018_reset_loop = st.mcp23018_reset_loop := by
  rw [← read_cols_expander_reset_loop hw st row]
  unfold store_raw_matrix_row
  simp only []
  split <;> rfl

theorem store_raw_matrix_row_other (hw : Hw) (st : State) (row i : Nat) (h : i ≠ row) :
    (store_raw_matrix_row hw st row).2.raw_matrix i = st.raw_matrix i := by
  have hr := (read_cols_expander_busOnly hw st row).1
  unfold store_raw_matrix_row
  simp only []
  split
  · simp only [if_neg h]
    rw [hr]
  · rw [hr]

theorem store_raw_matrix_row_changed (hw : Hw) (st : State) (row : Nat) :
    (store_raw_matrix_row hw st row).1 =
      decide (st.raw_matrix row ≠
        (((read_cols_expander hw st row).1 <<< 7) ||| read_cols_onboard hw row)) := by
  have hw1 := store_raw_matrix_row_word hw st row
  have hr := (read_cols_expander_busOnly hw st row).1
  unfold store_raw_matrix_row at hw1 ⊢
  simp only [] at hw1 ⊢
  split at hw1
  · rename_i hne
    rw [if_pos hne]
    simp only [if_pos] at hw1
    rw [hr] at hne
    rw [← hw1]
    simpa using hne
  · rename_i hne
    rw [if_neg hne]
    rw [hr] at hw1
    simp [hw1]

/-- The events of one iteration of the row loop. -/
theorem scan_row_reaches (hw : Hw) (acc : State × Bool) (i : Nat) :
    ∃ busA busB, (∀ e ∈ busA, Event.isBus e = true) ∧ (∀ e ∈ busB, Event.isBus e = true) ∧
      Reaches acc.1 (scan_row hw acc i).1
        (busA ++ (select_events i ++ (busB ++ unselect_events))) := by
  obtain ⟨_, busA, hA, hbA⟩ := select_row_expander_busOnly hw acc.1 i
  have hS := select_row_onboard_reaches (select_row_expander hw acc.1 i) i
  obtain ⟨_, busB, hB, hbB⟩ := read_cols_expander_busOnly hw (scan_select hw acc.1 i) i
  have hB2 : Reaches (scan_select hw acc.1 i)
      (store_raw_matrix_row hw (scan_select hw acc.1 i) i).2 busB :=
    ⟨by rw [store_raw_matrix_row_trace]; exact hB.1,
     by rw [store_raw_matrix_row_pins]; exact hB.2⟩
  have hU := unselect_rows_reaches (store_raw_matrix_row hw (scan_select hw acc.1 i) i).2
  exact ⟨busA, busB, hbA, hbB, hA.append (hS.append (hB2.append hU))⟩

theorem scan_row_rows_input (hw : Hw) (acc : State × Bool) (i : Nat) :
    rows_input (scan_row hw acc i).1.pins :=
  unselect_rows_input _

theorem scan_row_reset_loop (hw : Hw) (acc : State × Bool) (i : Nat) :
    (scan_row hw acc i).1.mcp23018_reset_loop = acc.1.mcp23018_reset_loop := by
  show (unselect_rows _).mcp23018_reset_loop = _
  rw [unselect_rows_reset_loop, store_raw_matrix_row_reset_loop]
  show (select_row_onboard _ i).mcp23018_reset_loop = _
  rw [select_row_onboard_reset_loop, select_row_expander_reset_loop]

theorem scan_rows_zero (hw : Hw) (st : State) : scan_rows hw st 0 = (st, false) := rfl

theorem scan_rows_succ (hw : Hw) (st : State) (n : Nat) :
    scan_rows hw st (n + 1) = scan_row hw (scan_rows hw st n) n := by
  unfold scan_rows
  rw [List.range_succ, List.foldl_append]
  rfl

theorem scan_rows_reset_loop (hw : Hw) (st : State) (n : Nat) :
    (scan_rows hw st n).1.mcp23018_reset_loop = st.mcp23018_reset_loop := by
  induction n with
  | zero => rfl
  | succ n ih => rw [scan_rows_succ, scan_row_reset_loop, ih]

theorem scan_rows_rows_input (hw : Hw) (st : State) (n : Nat) (hn : 1 ≤ n) :
    rows_input (scan_rows hw st n).1.pins := by
  obtain ⟨m, rfl⟩ : ∃ m, n = m + 1 := ⟨n - 1, by omega⟩
  rw [scan_rows_succ]
  exact scan_row_rows_input hw _ m

/-- The events of the first `n` iterations of the row loop keep at most one row
pin driven low, when the loop starts with every row pin an input. -/
theorem scan_rows_reaches (hw : Hw) (st : State) (n : Nat) :
    ∃ evs, Reaches st (scan_rows hw st n).1 evs ∧
      (rows_input st.pins → Pins.always one_row_low st.pins evs) ∧
      (rows_input st.pins → rows_input (scan_rows hw st n).1.pins) := by
  induction n with
  | zero =>
    exact ⟨[], Reaches.nil st, fun h => rows_input_one_row_low _ h, fun h => h⟩
  | succ n ih =>
    obtain ⟨evs, hr, hal, hin⟩ := ih
    obtain ⟨busA, busB, hA, hB, hrow⟩ := scan_row_reaches hw (scan_rows hw st n) n
    rw [scan_rows_succ]
    refine ⟨evs ++ (busA ++ (select_events n ++ (busB ++ unselect_events))), hr.append hrow, ?_, ?_⟩
    · intro hg
      rw [always_append]
      refine ⟨hal hg, ?_⟩
      rw [← hr.2]
      exact always_row_events _ n busA busB hA hB (hin hg)
    · intro _
      exact scan_row_rows_input hw _ n

theorem scan_retry_busOnly (hw : Hw) (st : State) : BusOnly st (scan_retry hw st) := by
  unfold scan_retry
  split
  · simp only []
    split
    · exact @BusOnly.andThen st
        { st with mcp23018_reset_loop := (st.mcp23018_reset_loop + 1) % 256 } _
        ⟨rfl, [], ⟨by simp, rfl⟩, by simp⟩ (init_mcp23018_busOnly hw _)
    · exact ⟨rfl, [], ⟨by simp, rfl⟩, by simp⟩
  · exact BusOnly.same st

/-! ## Row selection -/

theorem bus_chain_trace (hw : Hw) (st : State) (ops : List Event) :
    ∃ k, (ops ≠ [] → 1 ≤ k) ∧ k ≤ ops.length ∧
      (bus_chain hw st ops).trace = st.trace ++ ops.take k := by
  induction ops generalizing st with
  | nil => exact ⟨0, by simp, by simp, by simp⟩
  | cons op rest ih =>
    rw [bus_chain_cons]
    split
    · exact ⟨1, by simp, by simp, by simp⟩
    · obtain ⟨k, _, hk, ht⟩ := ih (bus_call hw st op)
      refine ⟨k + 1, by simp, by simpa using hk, ?_⟩
      rw [ht]
      simp

theorem row_byte_testBit (i : Nat) (b : Nat) :
    (row_byte i).testBit b = (decide (b < 8) && decide (b ≠ expander_row_pins.getD i 0)) := by
  unfold row_byte
  generalize expander_row_pins.getD i 0 = p
  rw [Nat.testBit_and, testBit_0xFF, not16_testBit, Nat.testBit_shiftLeft, one_testBit]
  by_cases h8 : b < 8
  · have h16 : b < 16 := by omega
    by_cases hb : b = p
    · simp [h8, h16, hb]
    · by_cases hle : p ≤ b
      · have hne : ¬ (b - p = 0) := by omega
        simp [h8, h16, hb, hle, hne]
      · simp [h8, h16, hb, hle]
  · simp [h8]

/-- C4: `layer_state_set_kb` writes F4 once and calls `set_space_led` once, with
values fixed by the highest active layer `h`: `h = 0` gives (1, off), `h = 1`
gives (0, off), `h = 2` gives (1, on) and `h >= 3` gives (0, on); the user hook
runs afterwards. -/
theorem layer_state_set_kb_table (hw : Hw) (fw : Framework) (st : State) (state : Nat) :
    (fw.get_highest_layer state = 0 →
      layer_state_set_kb hw fw st state =
        fw.layer_state_set_user (set_space_led hw (writePin st F4 true) false) state) ∧
    (fw.get_highest_layer state = 1 →
      layer_state_set_kb hw fw st state =
        fw.layer_state_set_user (set_space_led hw (writePin st F4 false) false) state) ∧
    (fw.get_highest_layer state = 2 →
      layer_state_set_kb hw fw st state =
        fw.layer_state_set_user (set_space_led hw (writePin st F4 true) true) state) ∧
    (3 ≤ fw.get_highest_layer state →
      layer_state_set_kb hw fw st state =
        fw.layer_state_set_user (set_space_led hw (writePin st F4 false) true) state) := by
  unfold layer_state_set_kb
  refine ⟨?_, ?_, ?_, ?_⟩
  · intro h
    rw [h]
  · intro h
    rw [h]
  · intro h
    rw [h]
  · intro h
    obtain ⟨m, hm⟩ : ∃ m, fw.get_highest_layer state = m + 3 :=
      ⟨fw.get_highest_layer state - 3, by omega⟩
    rw [hm]
    rfl

/-- C4 on a layer mask whose highest layer is 5, from the boot state. -/
theorem layer_state_set_kb_table_witness :
    layer_state_set_kb hw_idle fw_default st_boot 0b100000 =
      fw_default.layer_state_set_user
        (set_space_led hw_idle (writePin st_boot F4 false) true) 0b100000 :=
  (layer_state_set_kb_table hw_idle fw_default st_boot 0b100000).2.2.2 (by decide)

/-- C9 (as the code behaves): `set_space_led` does not test the link status.
After `matrix_init_custom` has failed at power-up (the first bus operation
timed out), a call of `set_space_led` on the bus that now answers issues the
whole LED write and leaves the link status ok, with no re-initialisation; the
guarded `select_row_expander` does nothing in the same state. -/
theorem set_space_led_unguarded :
    (matrix_init_custom hw_late st_boot).mcp23018_status = -2 ∧
    (set_space_led hw_late (matrix_init_custom hw_late st_boot) true).trace =
      (matrix_init_custom hw_late st_boot).trace ++
        [Event.i2c_start I2C_ADDR_WRITE, Event.i2c_write GPIOA, Event.i2c_write 0,
          Event.i2c_stop] ∧
    (set_space_led hw_late (matrix_init_custom hw_late st_boot) true).mcp23018_status = 0 ∧
    (select_row_expander hw_late (matrix_init_custom hw_late st_boot) 0).trace =
      (matrix_init_custom hw_late st_boot).trace := by
  refine ⟨by decide, by decide, by decide, by decide⟩

/-- C10: F4 and F5, the pins the LED hooks write, are rows 0 and 1 of
`onboard_row_pins`; from any pin state a scan pass has F4 an output driven low
while row 0 is read, F5 an output driven low while row 1 is read, and ends with
F4 and F5 (and every row pin) configured as inputs. -/
theorem scan_overrides_led_pins (hw : Hw) (fw : Framework) (st : State) :
    (onboard_row_pins[0]? = some F4 ∧ onboard_row_pins[1]? = some F5) ∧
    (∀ state, ∃ level is_on, layer_state_set_kb hw fw st state =
        fw.layer_state_set_user (set_space_led hw (writePin st F4 level) is_on) state) ∧
    (∀ led, (fw.led_update_user st led).1 = true →
        (led_update_kb fw st led).2 =
          writePin (fw.led_update_user st led).2 F5 (!led.caps_lock)) ∧
    (init_led_ports fw st = fw.keyboard_pre_init_user (setPinOutput (setPinOutput st F4) F5) ∧
      (setPinOutput (setPinOutput st F4) F5).pins.ddr F4 = true ∧
      (setPinOutput (setPinOutput st F4) F5).pins.ddr F5 = true) ∧
    ((scan_select hw (scan_retry hw st) 0).pins.ddr F4 = true ∧
      (scan_select hw (scan_retry hw st) 0).pins.port F4 = false ∧
      (store_raw_matrix_row hw (scan_select hw (scan_retry hw st) 0) 0).2.pins =
        (scan_select hw (scan_retry hw st) 0).pins) ∧
    ((scan_select hw (scan_rows hw (scan_retry hw st) 1).1 1).pins.ddr F5 = true ∧
      (scan_select hw (scan_rows hw (scan_retry hw st) 1).1 1).pins.port F5 = false ∧
      (store_raw_matrix_row hw (scan_select hw (scan_rows hw (scan_retry hw st) 1).1 1) 1).2.pins =
        (scan_select hw (scan_rows hw (scan_retry hw st) 1).1 1).pins) ∧
    ((matrix_scan_custom hw st).1.pins.ddr F4 = false ∧
      (matrix_scan_custom hw st).1.pins.ddr F5 = false ∧
      rows_input (matrix_scan_custom hw st).1.pins) := by
  have hfin : rows_input (matrix_scan_custom hw st).1.pins :=
    scan_rows_rows_input hw (scan_retry hw st) MATRIX_ROWS (by decide)
  refine ⟨⟨rfl, rfl⟩, ?_, ?_, ⟨rfl, ?_, ?_⟩, ⟨?_, ?_, ?_⟩, ⟨?_, ?_, ?_⟩, ⟨?_, ?_, hfin⟩⟩
  · intro state
    unfold layer_state_set_kb
    split
    · exact ⟨true, false, rfl⟩
    · exact ⟨false, false, rfl⟩
    · exact ⟨true, true, rfl⟩
    · exact ⟨false, true, rfl⟩
  · intro led h
    unfold led_update_kb
    simp only [h, if_true]
  · simp [setPinOutput, pin_write, Pins.apply, F4, F5]
  · simp [setPinOutput, pin_write, Pins.apply]
  · exact (select_row_onboard_low _ 0 F4 rfl).1
  · exact (select_row_onboard_low _ 0 F4 rfl).2
  · rw [store_raw_matrix_row_pins]
    exact (read_cols_expander_busOnly hw _ 0).pins_eq
  · exact (select_row_onboard_low _ 1 F5 rfl).1
  · exact (select_row_onboard_low _ 1 F5 rfl).2
  · rw [store_raw_matrix_row_pins]
    exact (read_cols_expander_busOnly hw _ 1).pins_eq
  · exact hfin F4 (by simp [onboard_row_pins])
  · exact hfin F5 (by simp [onboard_row_pins])

/-! ## Rows computed by the loop -/

theorem scan_select_raw_matrix (hw : Hw) (s : State) (i : Nat) :
    (scan_select hw s i).raw_matrix = s.raw_matrix := by
  unfold scan_select
  rw [select_row_onboard_raw_matrix, (select_row_expander_busOnly hw s i).1]

theorem scan_select_status (hw : Hw) (s : State) (i : Nat) :
    (scan_select hw s i).mcp23018_status = (select_row_expander hw s i).mcp23018_status := by
  unfold scan_select
  rw [select_row_onboard_status]

theorem scan_row_raw_self (hw : Hw) (acc : State × Bool) (i : Nat) :
    (scan_row hw acc i).1.raw_matrix i = row_word hw acc.1 i := by
  show (unselect_rows _).raw_matrix i = _
  rw [unselect_rows_raw_matrix, store_raw_matrix_row_word]
  rfl

theorem scan_row_raw_other (hw : Hw) (acc : State × Bool) (i j : Nat) (h : j ≠ i) :
    (scan_row hw acc i).1.raw_matrix j = acc.1.raw_matrix j := by
  show (unselect_rows _).raw_matrix j = _
  rw [unselect_rows_raw_matrix, store_raw_matrix_row_other _ _ _ _ h, scan_select_raw_matrix]

theorem scan_row_changed (hw : Hw) (acc : State × Bool) (i : Nat) :
    (scan_row hw acc i).2 = (acc.2 || decide (acc.1.raw_matrix i ≠ row_word hw acc.1 i)) := by
  show (acc.2 || (store_raw_matrix_row hw (scan_select hw acc.1 i) i).1) = _
  rw [store_raw_matrix_row_changed, scan_select_raw_matrix]
  rfl

theorem scan_row_status (hw : Hw) (acc : State × Bool) (i : Nat) :
    (scan_row hw acc i).1.mcp23018_status =
      (read_cols_expander hw (scan_select hw acc.1 i) i).2.mcp23018_status := by
  show (unselect_rows _).mcp23018_status = _
  rw [unselect_rows_status, store_raw_matrix_row_status]

theorem scan_rows_raw_later (hw : Hw) (s : State) (n j : Nat) (h : n ≤ j) :
    (scan_rows hw s n).1.raw_matrix j = s.raw_matrix j := by
  induction n with
  | zero => rfl
  | succ n ih =>
    rw [scan_rows_succ, scan_row_raw_other _ _ _ _ (by omega), ih (by omega)]

theorem scan_rows_raw_earlier (hw : Hw) (s : State) (n j : Nat) (h : j < n) :
    (scan_rows hw s n).1.raw_matrix j = row_word hw (scan_rows hw s j).1 j := by
  induction n with
  | zero => omega
  | succ n ih =>
    rw [scan_rows_succ]
    rcases Nat.lt_or_ge j n with hlt | hge
    · rw [scan_row_raw_other _ _ _ _ (by omega), ih hlt]
    · have : j = n := by omega
      subst this
      exact scan_row_raw_self hw _ j

/-! ## A pass with the link down -/

theorem select_row_expander_dead (hw : Hw) (s : State) (i : Nat) (h : s.mcp23018_status ≠ 0) :
    select_row_expander hw s i = s := by
  unfold select_row_expander
  rw [if_neg h]

theorem read_cols_expander_dead (hw : Hw) (s : State) (i : Nat) (h : s.mcp23018_status ≠ 0) :
    read_cols_expander hw s i = (0, s) := by
  unfold read_cols_expander
  rw [if_pos h]

theorem scan_select_dead (hw : Hw) (s : State) (i : Nat) (h : s.mcp23018_status ≠ 0) :
    scan_select hw s i = select_row_onboard s i := by
  unfold scan_select
  rw [select_row_expander_dead hw s i h]

theorem row_word_dead (hw : Hw) (s : State) (i : Nat) (h : s.mcp23018_status ≠ 0) :
    row_word hw s i = read_cols_onboard hw i := by
  unfold row_word
  rw [scan_select_dead hw s i h,
    read_cols_expander_dead hw _ i (by rw [select_row_onboard_status]; exact h)]
  simp

theorem scan_row_status_dead (hw : Hw) (acc : State × Bool) (i : Nat)
    (h : acc.1.mcp23018_status ≠ 0) :
    (scan_row hw acc i).1.mcp23018_status = acc.1.mcp23018_status := by
  rw [scan_row_status, scan_select_dead hw _ i h,
    read_cols_expander_dead hw _ i (by rw [select_row_onboard_status]; exact h),
    select_row_onboard_status]

theorem scan_row_reaches_dead (hw : Hw) (acc : State × Bool) (i : Nat)
    (h : acc.1.mcp23018_status ≠ 0) :
    Reaches acc.1 (scan_row hw acc i).1 (select_events i ++ unselect_events) := by
  have hS := select_row_onboard_reaches acc.1 i
  have hst : (select_row_onboard acc.1 i).mcp23018_status ≠ 0 := by
    rw [select_row_onboard_status]; exact h
  have hU := unselect_rows_reaches (store_raw_matrix_row hw (scan_select hw acc.1 i) i).2
  have hB : Reaches (select_row_onboard acc.1 i)
      (store_raw_matrix_row hw (scan_select hw acc.1 i) i).2 [] := by
    constructor
    · rw [store_raw_matrix_row_trace, scan_select_dead hw _ i h,
        read_cols_expander_dead hw _ i hst]
      simp
    · rw [store_raw_matrix_row_pins, scan_select_dead hw _ i h,
        read_cols_expander_dead hw _ i hst]
      rfl
  have := hS.append (hB.append hU)
  simpa using this

theorem select_events_not_bus (i : Nat) : ∀ e ∈ select_events i, Event.isBus e = false := by
  unfold select_events
  split <;> simp [Event.isBus]

theorem unselect_events_not_bus : ∀ e ∈ unselect_events, Event.isBus e = false := by
  simp [unselect_events, onboard_row_pins, Event.isBus]

theorem scan_rows_status_dead (hw : Hw) (s : State) (n : Nat) (h : s.mcp23018_status ≠ 0) :
    (scan_rows hw s n).1.mcp23018_status = s.mcp23018_status := by
  induction n with
  | zero => rfl
  | succ n ih => rw [scan_rows_succ, scan_row_status_dead hw _ n (by rw [ih]; exact h), ih]

/-- With the link down at the start of the row loop, the loop leaves the
status alone, issues no bus operation and stores the on-board word alone. -/
theorem scan_rows_dead (hw : Hw) (s : State) (n : Nat) (h : s.mcp23018_status ≠ 0) :
    (scan_rows hw s n).1.mcp23018_status = s.mcp23018_status ∧
      (∀ j, j < n → (scan_rows hw s n).1.raw_matrix j = read_cols_onboard hw j) ∧
      ∃ evs, Reaches s (scan_rows hw s n).1 evs ∧ ∀ e ∈ evs, Event.isBus e = false := by
  refine ⟨scan_rows_status_dead hw s n h, ?_, ?_⟩
  · intro j hj
    rw [scan_rows_raw_earlier hw s n j hj]
    apply row_word_dead
    rw [scan_rows_status_dead hw s j h]
    exact h
  · induction n with
    | zero => exact ⟨[], Reaches.nil s, by simp⟩
    | succ n ih =>
      obtain ⟨evs, hr, hev⟩ := ih
      have hdead : (scan_rows hw s n).1.mcp23018_status ≠ 0 := by
        rw [scan_rows_status_dead hw s n h]; exact h
      rw [scan_rows_succ]
      refine ⟨evs ++ (select_events n ++ unselect_events),
        hr.append (scan_row_reaches_dead hw _ n hdead), ?_⟩
      intro e he
      rcases List.mem_append.1 he with h1 | h1
      · exact hev e h1
      · rcases List.mem_append.1 h1 with h2 | h2
        · exact select_events_not_bus n e h2
        · exact unselect_events_not_bus e h2

/-! ## The retry step -/

theorem scan_retry_ok (hw : Hw) (st : State) (h : st.mcp23018_status = 0) :
    scan_retry hw st = st := by
  unfold scan_retry
  rw [if_neg (by simpa using h)]

theorem scan_retry_wrap (hw : Hw) (st : State) (h : st.mcp23018_status ≠ 0)
    (hw0 : (st.mcp23018_reset_loop + 1) % 256 = 0) :
    scan_retry hw st = init_mcp23018 hw { st with mcp23018_reset_loop := 0 } := by
  unfold scan_retry
  rw [if_pos h]
  simp only [hw0, if_true]

theorem scan_retry_nowrap (hw : Hw) (st : State) (h : st.mcp23018_status ≠ 0)
    (hw0 : (st.mcp23018_reset_loop + 1) % 256 ≠ 0) :
    scan_retry hw st =
      { st with mcp23018_reset_loop := (st.mcp23018_reset_loop + 1) % 256 } := by
  unfold scan_retry
  rw [if_pos h]
  simp only [hw0, if_false]

theorem scan_retry_reset_loop (hw : Hw) (st : State) (h : st.mcp23018_status ≠ 0) :
    (scan_retry hw st).mcp23018_reset_loop = (st.mcp23018_reset_loop + 1) % 256 := by
  by_cases hw0 : (st.mcp23018_reset_loop + 1) % 256 = 0
  · rw [scan_retry_wrap hw st h hw0, init_mcp23018_reset_loop, hw0]
  · rw [scan_retry_nowrap hw st h hw0]

theorem init_mcp23018_trace_start (hw : Hw) (st : State) :
    ∃ rest, (init_mcp23018 hw st).trace = st.trace ++ Event.i2c_start I2C_ADDR_WRITE :: rest := by
  obtain ⟨k, h1, _, ht⟩ := bus_chain_trace hw (open_transport { st with mcp23018_status := 0x20 })
    [Event.i2c_start I2C_ADDR_WRITE, Event.i2c_write IODIRA,
      Event.i2c_write 0b11111110, Event.i2c_write 0b11100000]
  obtain ⟨m, rfl⟩ : ∃ m, k = m + 1 := ⟨k - 1, by have := h1 (by simp); omega⟩
  rw [open_transport_trace, List.take_succ_cons] at ht
  unfold init_mcp23018
  simp only []
  split
  · refine ⟨List.take m [Event.i2c_write IODIRA, Event.i2c_write 0b11111110,
      Event.i2c_write 0b11100000] ++ [Event.i2c_stop], ?_⟩
    rw [i2c_stop_trace, ht]
    simp
  · obtain ⟨r2, h2⟩ := (bus_chain_busOnly hw (i2c_stop (bus_chain hw
      (open_transport { st with mcp23018_status := 0x20 })
      [Event.i2c_start I2C_ADDR_WRITE, Event.i2c_write IODIRA,
        Event.i2c_write 0b11111110, Event.i2c_write 0b11100000]))
      [Event.i2c_start I2C_ADDR_WRITE, Event.i2c_write GPPUA,
        Event.i2c_write 0b11111110, Event.i2c_write 0b11100000] (by simp [Event.isBus])).2
    refine ⟨List.take m [Event.i2c_write IODIRA, Event.i2c_write 0b11111110,
      Event.i2c_write 0b11100000] ++ [Event.i2c_stop] ++ r2 ++ [Event.i2c_stop], ?_⟩
    rw [i2c_stop_trace, h2.1.1, i2c_stop_trace, ht]
    simp

theorem bus_chain_status_fail (hw : Hw) (st : State) (op : Event) (rest : List Event)
    (hfail : ∀ h o, hw.i2c_status h o ≠ 0) :
    (bus_chain hw st (op :: rest)).mcp23018_status ≠ 0 := by
  rw [bus_chain_cons_fail hw st op rest (hfail _ _)]
  exact hfail _ _

theorem init_mcp23018_status_fail (hw : Hw) (st : State)
    (hfail : ∀ h o, hw.i2c_status h o ≠ 0) : (init_mcp23018 hw st).mcp23018_status ≠ 0 := by
  unfold init_mcp23018
  simp only []
  rw [if_pos (bus_chain_status_fail hw _ _ _ hfail)]
  exact bus_chain_status_fail hw _ _ _ hfail

theorem init_cols_status (st : State) : (init_cols st).mcp23018_status = st.mcp23018_status := by
  unfold init_cols
  generalize onboard_col_pins = pins
  induction pins generalizing st with
  | nil => rfl
  | cons p pins ih => rw [List.foldl_cons, ih]; rfl

theorem scan_rows_trace (hw : Hw) (s : State) (n : Nat) :
    ∃ evs, (scan_rows hw s n).1.trace = s.trace ++ evs := by
  obtain ⟨evs, hr, _⟩ := scan_rows_reaches hw s n
  exact ⟨evs, hr.1⟩

/-- A pass entered with the link down and the retry counter not wrapping. -/
theorem pass_nowrap (hw : Hw) (st : State) (h : st.mcp23018_status ≠ 0)
    (hw0 : (st.mcp23018_reset_loop + 1) % 256 ≠ 0) :
    matrix_scan_custom hw st =
        scan_rows hw { st with mcp23018_reset_loop := (st.mcp23018_reset_loop + 1) % 256 }
          MATRIX_ROWS ∧
      (matrix_scan_custom hw st).1.mcp23018_status = st.mcp23018_status ∧
      ∃ evs, (matrix_scan_custom hw st).1.trace = st.trace ++ evs ∧
        ∀ e ∈ evs, Event.isBus e = false := by
  have heq : matrix_scan_custom hw st =
      scan_rows hw { st with mcp23018_reset_loop := (st.mcp23018_reset_loop + 1) % 256 }
        MATRIX_ROWS := by
    unfold matrix_scan_custom
    simp only [scan_retry_nowrap hw st h hw0]
  obtain ⟨hst, _, evs, hr, hev⟩ := scan_rows_dead hw
    { st with mcp23018_reset_loop := (st.mcp23018_reset_loop + 1) % 256 } MATRIX_ROWS h
  refine ⟨heq, ?_, evs, ?_, hev⟩
  · rw [heq, hst]
  · rw [heq, hr.1]

/-- A pass entered with the link down and the retry counter wrapping. -/
theorem pass_wrap (hw : Hw) (st : State) (h : st.mcp23018_status ≠ 0)
    (hw0 : (st.mcp23018_reset_loop + 1) % 256 = 0) :
    matrix_scan_custom hw st =
        scan_rows hw (init_mcp23018 hw { st with mcp23018_reset_loop := 0 }) MATRIX_ROWS ∧
      ∃ rest, (matrix_scan_custom hw st).1.trace =
        st.trace ++ Event.i2c_start I2C_ADDR_WRITE :: rest := by
  have heq : matrix_scan_custom hw st =
      scan_rows hw (init_mcp23018 hw { st with mcp23018_reset_loop := 0 }) MATRIX_ROWS := by
    unfold matrix_scan_custom
    simp only [scan_retry_wrap hw st h hw0]
  obtain ⟨r1, h1⟩ := init_mcp23018_trace_start hw { st with mcp23018_reset_loop := 0 }
  obtain ⟨r2, h2⟩ := scan_rows_trace hw
    (init_mcp23018 hw { st with mcp23018_reset_loop := 0 }) MATRIX_ROWS
  refine ⟨heq, r1 ++ r2, ?_⟩
  rw [heq, h2, h1]
  simp

theorem pass_reset_loop (hw : Hw) (st : State) (h : st.mcp23018_status ≠ 0) :
    (matrix_scan_custom hw st).1.mcp23018_reset_loop = (st.mcp23018_reset_loop + 1) % 256 := by
  unfold matrix_scan_custom
  simp only []
  rw [scan_rows_reset_loop, scan_retry_reset_loop hw st h]

/-- From counter 0 with the link down, the first 255 passes keep the link down
and count up. -/
theorem scan_passes_counting (hw : Hw) (st : State) (h : st.mcp23018_status ≠ 0)
    (h0 : st.mcp23018_reset_loop = 0) (k : Nat) (hk : k ≤ 255) :
    (scan_passes hw st k).mcp23018_status ≠ 0 ∧
      (scan_passes hw st k).mcp23018_reset_loop = k := by
  induction k with
  | zero => exact ⟨h, h0⟩
  | succ k ih =>
    obtain ⟨hs, hc⟩ := ih (by omega)
    have hnw : ((scan_passes hw st k).mcp23018_reset_loop + 1) % 256 ≠ 0 := by
      rw [hc]; omega
    show (matrix_scan_custom hw (scan_passes hw st k)).1.mcp23018_status ≠ 0 ∧
      (matrix_scan_custom hw (scan_passes hw st k)).1.mcp23018_reset_loop = k + 1
    refine ⟨?_, ?_⟩
    · rw [(pass_nowrap hw _ hs hnw).2.1]; exact hs
    · rw [pass_reset_loop hw _ hs, hc]; omega

/-- C7: a pass entered with the link not ok increments the retry counter by one
modulo 256 and runs `init_mcp23018` exactly when the incremented counter is 0
(otherwise it issues no bus operation at all); a pass entered with the link ok
leaves the counter alone and goes straight to the row loop; from counter 0 with
the link down, passes 1 to 255 attempt no re-initialisation and the link stays
down, and pass 256 attempts it. -/
theorem retry_counter (hw : Hw) (st : State) :
    (st.mcp23018_status ≠ 0 →
      (matrix_scan_custom hw st).1.mcp23018_reset_loop = (st.mcp23018_reset_loop + 1) % 256 ∧
      ((st.mcp23018_reset_loop + 1) % 256 = 0 →
        matrix_scan_custom hw st =
          scan_rows hw (init_mcp23018 hw { st with mcp23018_reset_loop := 0 }) MATRIX_ROWS ∧
        ∃ rest, (matrix_scan_custom hw st).1.trace =
          st.trace ++ Event.i2c_start I2C_ADDR_WRITE :: rest) ∧
      ((st.mcp23018_reset_loop + 1) % 256 ≠ 0 →
        matrix_scan_custom hw st =
          scan_rows hw { st with mcp23018_reset_loop := (st.mcp23018_reset_loop + 1) % 256 }
            MATRIX_ROWS ∧
        ∃ evs, (matrix_scan_custom hw st).1.trace = st.trace ++ evs ∧
          ∀ e ∈ evs, Event.isBus e = false)) ∧
    (st.mcp23018_status = 0 →
      (matrix_scan_custom hw st).1.mcp23018_reset_loop = st.mcp23018_reset_loop ∧
      matrix_scan_custom hw st = scan_rows hw st MATRIX_ROWS) ∧
    (st.mcp23018_status ≠ 0 → st.mcp23018_reset_loop = 0 →
      (∀ k, k < 255 →
        (scan_passes hw st k).mcp23018_status ≠ 0 ∧
        (scan_passes hw st k).mcp23018_reset_loop = k ∧
        matrix_scan_custom hw (scan_passes hw st k) =
          scan_rows hw { scan_passes hw st k with mcp23018_reset_loop := k + 1 } MATRIX_ROWS ∧
        ∃ evs, (scan_passes hw st (k + 1)).trace = (scan_passes hw st k).trace ++ evs ∧
          ∀ e ∈ evs, Event.isBus e = false) ∧
      (scan_passes hw st 255).mcp23018_status ≠ 0 ∧
      (scan_passes hw st 255).mcp23018_reset_loop = 255 ∧
      matrix_scan_custom hw (scan_passes hw st 255) =
        scan_rows hw (init_mcp23018 hw { scan_passes hw st 255 with mcp23018_reset_loop := 0 })
          MATRIX_ROWS ∧
      ∃ rest, (scan_passes hw st 256).trace =
        (scan_passes hw st 255).trace ++ Event.i2c_start I2C_ADDR_WRITE :: rest) := by
  refine ⟨?_, ?_, ?_⟩
  · intro h
    refine ⟨pass_reset_loop hw st h, fun hw0 => pass_wrap hw st h hw0, fun hw0 => ?_⟩
    exact ⟨(pass_nowrap hw st h hw0).1, (pass_nowrap hw st h hw0).2.2⟩
  · intro h
    have heq : matrix_scan_custom hw st = scan_rows hw st MATRIX_ROWS := by
      unfold matrix_scan_custom
      simp only [scan_retry_ok hw st h]
    exact ⟨by rw [heq, scan_rows_reset_loop], heq⟩
  · intro h h0
    refine ⟨?_, ?_⟩
    · intro k hk
      obtain ⟨hs, hc⟩ := scan_passes_counting hw st h h0 k (by omega)
      have hnw : ((scan_passes hw st k).mcp23018_reset_loop + 1) % 256 ≠ 0 := by
        rw [hc]; omega
      have hp := pass_nowrap hw _ hs hnw
      have hmod : ((scan_passes hw st k).mcp23018_reset_loop + 1) % 256 = k + 1 := by
        rw [hc]; omega
      rw [hmod] at hp
      exact ⟨hs, hc, hp.1, hp.2.2⟩
    · obtain ⟨hs, hc⟩ := scan_passes_counting hw st h h0 255 (by omega)
      have hwr : ((scan_passes hw st 255).mcp23018_reset_loop + 1) % 256 = 0 := by
        rw [hc]
      have hp := pass_wrap hw _ hs hwr
      exact ⟨hs, hc, hp.1, hp.2⟩

/-- C7 from the boot state on a dead bus: the counter reaches 255 and the 256th
pass opens with the start of `init_mcp23018`. -/
theorem retry_counter_witness :
    st_boot.mcp23018_status ≠ 0 ∧ st_boot.mcp23018_reset_loop = 0 ∧
      (scan_passes hw_dead st_boot 255).mcp23018_reset_loop = 255 ∧
      ∃ rest, (scan_passes hw_dead st_boot 256).trace =
        (scan_passes hw_dead st_boot 255).trace ++ Event.i2c_start I2C_ADDR_WRITE :: rest :=
  ⟨by decide, rfl,
    ((retry_counter hw_dead st_boot).2.2 (by decide) rfl).2.2.1,
    ((retry_counter hw_dead st_boot).2.2 (by decide) rfl).2.2.2.2⟩

/-! ## A dead bus -/

theorem pass_dead (hw : Hw) (s : State) (hfail : ∀ h o, hw.i2c_status h o ≠ 0)
    (hs : s.mcp23018_status ≠ 0) :
    (matrix_scan_custom hw s).1.mcp23018_status ≠ 0 ∧
      ∀ i, i < MATRIX_ROWS → (matrix_scan_custom hw s).1.raw_matrix i = read_cols_onboard hw i := by
  have hr : (scan_retry hw s).mcp23018_status ≠ 0 := by
    by_cases hw0 : (s.mcp23018_reset_loop + 1) % 256 = 0
    · rw [scan_retry_wrap hw s hs hw0]
      exact init_mcp23018_status_fail hw _ hfail
    · rw [scan_retry_nowrap hw s hs hw0]
      exact hs
  obtain ⟨hst, hraw, _⟩ := scan_rows_dead hw (scan_retry hw s) MATRIX_ROWS hr
  exact ⟨by show (scan_rows hw (scan_retry hw s) MATRIX_ROWS).1.mcp23018_status ≠ 0
            rw [hst]; exact hr, hraw⟩

theorem scan_passes_dead (hw : Hw) (s : State) (hfail : ∀ h o, hw.i2c_status h o ≠ 0)
    (hs : s.mcp23018_status ≠ 0) (n : Nat) : (scan_passes hw s n).mcp23018_status ≠ 0 := by
  induction n with
  | zero => exact hs
  | succ n ih => exact (pass_dead hw _ hfail ih).1

/-- C5: on a bus on which every operation fails, `matrix_init_custom` leaves the
link status not ok, and after any number `n + 1` of scan passes the link is
still not ok and every stored row is the on-board word alone: its expander bits
7..14 are zero. -/
theorem dead_bus_expander_zero (hw : Hw) (st : State) (n : Nat)
    (hfail : ∀ h o, hw.i2c_status h o ≠ 0) :
    (matrix_init_custom hw st).mcp23018_status ≠ 0 ∧
    (scan_passes hw (matrix_init_custom hw st) (n + 1)).mcp23018_status ≠ 0 ∧
    ∀ i, i < MATRIX_ROWS →
      (scan_passes hw (matrix_init_custom hw st) (n + 1)).raw_matrix i = read_cols_onboard hw i ∧
      ∀ b, 7 ≤ b → b ≤ 14 →
        ((scan_passes hw (matrix_init_custom hw st) (n + 1)).raw_matrix i).testBit b = false := by
  have hinit : (matrix_init_custom hw st).mcp23018_status ≠ 0 := by
    unfold matrix_init_custom
    simp only []
    rw [init_cols_status, unselect_rows_status]
    exact init_mcp23018_status_fail hw st hfail
  have hn := scan_passes_dead hw _ hfail hinit n
  have hp := pass_dead hw _ hfail hn
  refine ⟨hinit, hp.1, ?_⟩
  intro i hi
  refine ⟨hp.2 i hi, ?_⟩
  intro b hb _
  show ((matrix_scan_custom hw (scan_passes hw (matrix_init_custom hw st) n)).1.raw_matrix i).testBit b
    = false
  rw [hp.2 i hi]
  exact Nat.testBit_lt_two_pow
    (lt_of_lt_of_le (read_cols_onboard_lt hw i) (Nat.pow_le_pow_right (by norm_num) hb))

/-- C5 on the timing-out bus, from the boot state, after three passes. -/
theorem dead_bus_expander_zero_witness :
    (∀ h o, hw_dead.i2c_status h o ≠ 0) ∧
      (scan_passes hw_dead (matrix_init_custom hw_dead st_boot) 3).mcp23018_status ≠ 0 :=
  ⟨fun _ _ => (by decide : (-2 : Int) ≠ 0),
    (dead_bus_expander_zero hw_dead st_boot 2 (fun _ _ => (by decide : (-2 : Int) ≠ 0))).2.1⟩

/-! ## Scanning the same physical state twice -/

theorem bus_chain_status_stateless (hw : Hw) (hfix : Stateless hw) (ops : List Event)
    (a b : State) (hab : a.mcp23018_status = b.mcp23018_status) :
    (bus_chain hw a ops).mcp23018_status = (bus_chain hw b ops).mcp23018_status := by
  induction ops generalizing a b with
  | nil => exact hab
  | cons op rest ih =>
    have hop : hw.i2c_status a.trace op = hw.i2c_status b.trace op := (hfix a.trace b.trace).1 op
    rw [bus_chain_cons, bus_chain_cons]
    simp only [bus_call_status, hop]
    split
    · simp only [bus_call_status, hop]
    · exact ih _ _ (by simp only [bus_call_status, hop])

theorem select_row_expander_sameLink (hw : Hw) (hfix : Stateless hw) (a b : State) (i : Nat)
    (hab : SameLink a b) : SameLink (select_row_expander hw a i) (select_row_expander hw b i) := by
  by_cases ha : a.mcp23018_status = 0
  · have hb : b.mcp23018_status = 0 := hab.1 ha
    unfold select_row_expander SameLink
    rw [if_pos ha, if_pos hb]
    simp only [i2c_stop_status]
    rw [bus_chain_status_stateless hw hfix _ a b (by rw [ha, hb])]
  · have hb : b.mcp23018_status ≠ 0 := fun h => ha (hab.2 h)
    rw [select_row_expander_dead hw a i ha, select_row_expander_dead hw b i hb]
    exact hab

theorem scan_select_sameLink (hw : Hw) (hfix : Stateless hw) (a b : State) (i : Nat)
    (hab : SameLink a b) : SameLink (scan_select hw a i) (scan_select hw b i) := by
  unfold SameLink
  rw [scan_select_status, scan_select_status]
  exact select_row_expander_sameLink hw hfix a b i hab

theorem read_cols_expander_alive (hw : Hw) (s : State) (i : Nat) (h : s.mcp23018_status = 0) :
    (read_cols_expander hw s i).1 =
        (if hw.i2c_status s.trace (Event.i2c_readReg I2C_ADDR_WRITE GPIOA 2) ≠ 0 then 0
         else expander_word (hw.i2c_data s.trace 0 % 256) (hw.i2c_data s.trace 1 % 256)) ∧
      (read_cols_expander hw s i).2.mcp23018_status =
        hw.i2c_status s.trace (Event.i2c_readReg I2C_ADDR_WRITE GPIOA 2) := by
  unfold read_cols_expander
  have h1 : ¬ (s.mcp23018_status ≠ 0) := by simpa using h
  simp only [if_neg h1, i2c_readReg, set_status]
  split
  · exact ⟨rfl, rfl⟩
  · exact ⟨rfl, rfl⟩

theorem read_cols_expander_sameLink (hw : Hw) (hfix : Stateless hw) (a b : State) (i : Nat)
    (hab : SameLink a b) :
    (read_cols_expander hw a i).1 = (read_cols_expander hw b i).1 ∧
      SameLink (read_cols_expander hw a i).2 (read_cols_expander hw b i).2 := by
  by_cases ha : a.mcp23018_status = 0
  · have hb : b.mcp23018_status = 0 := hab.1 ha
    have hs := (hfix a.trace b.trace).1 (Event.i2c_readReg I2C_ADDR_WRITE GPIOA 2)
    have hd := (hfix a.trace b.trace).2
    obtain ⟨a1, a2⟩ := read_cols_expander_alive hw a i ha
    obtain ⟨b1, b2⟩ := read_cols_expander_alive hw b i hb
    unfold SameLink
    rw [a1, a2, b1, b2, hs, hd 0, hd 1]
    exact ⟨rfl, Iff.rfl⟩
  · have hb : b.mcp23018_status ≠ 0 := fun h => ha (hab.2 h)
    rw [read_cols_expander_dead hw a i ha, read_cols_expander_dead hw b i hb]
    exact ⟨rfl, hab⟩

theorem scan_row_sameLink (hw : Hw) (hfix : Stateless hw) (p q : State × Bool) (i : Nat)
    (hab : SameLink p.1 q.1) :
    row_word hw p.1 i = row_word hw q.1 i ∧
      SameLink (scan_row hw p i).1 (scan_row hw q i).1 := by
  have h := read_cols_expander_sameLink hw hfix _ _ i (scan_select_sameLink hw hfix _ _ i hab)
  refine ⟨?_, ?_⟩
  · unfold row_word
    rw [h.1]
  · unfold SameLink
    rw [scan_row_status, scan_row_status]
    exact h.2

/-- The second of two row loops over the same fixed physical state, entered
with the same link state and with the rows the first one stored. -/
theorem scan_rows_again (hw : Hw) (hfix : Stateless hw) (s1 s2 : State)
    (hlink : SameLink s1 s2)
    (hraw : ∀ j, s2.raw_matrix j = (scan_rows hw s1 MATRIX_ROWS).1.raw_matrix j)
    (n : Nat) (hn : n ≤ MATRIX_ROWS) :
    SameLink (scan_rows hw s1 n).1 (scan_rows hw s2 n).1 ∧
      (scan_rows hw s2 n).2 = false ∧
      ∀ j, (scan_rows hw s2 n).1.raw_matrix j = s2.raw_matrix j := by
  induction n with
  | zero => exact ⟨hlink, rfl, fun _ => rfl⟩
  | succ n ih =>
    obtain ⟨hl, hc, hr⟩ := ih (by omega)
    obtain ⟨hword, hl2⟩ := scan_row_sameLink hw hfix (scan_rows hw s1 n) (scan_rows hw s2 n) n hl
    have hsame : (scan_rows hw s2 n).1.raw_matrix n = row_word hw (scan_rows hw s2 n).1 n := by
      rw [hr n, hraw n, scan_rows_raw_earlier hw s1 MATRIX_ROWS n (by omega), hword]
    rw [scan_rows_succ, scan_rows_succ]
    refine ⟨hl2, ?_, ?_⟩
    · rw [scan_row_changed, hc]
      simp [hsame]
    · intro j
      by_cases hj : j = n
      · rw [hj, scan_row_raw_self, ← hsame, hr n]
      · rw [scan_row_raw_other _ _ _ _ hj, hr j]

theorem hw_idle_stateless : Stateless hw_idle :=
  fun _ _ => ⟨fun _ => rfl, fun _ => rfl⟩

theorem hw_pressed_stateless : Stateless hw_pressed :=
  fun _ _ => ⟨fun _ => rfl, fun _ => rfl⟩

/-- C6: `init_mcp23018` issues the operations of `init_ops` in order up to and
including the first one that fails (all of them when none fails), then a stop,
and nothing else; the link status is the code of that first failure, or 0. -/
theorem init_mcp23018_sequence (hw : Hw) (st : State) :
    (init_mcp23018 hw st).trace =
      st.trace ++
        (match init_first_failure hw st with
         | some j => init_ops.take (j + 1)
         | none => init_ops) ++ [Event.i2c_stop] ∧
    (init_mcp23018 hw st).mcp23018_status =
      (match init_first_failure hw st with
       | some j => init_resp hw st j
       | none => 0) ∧
    (∀ j, init_first_failure hw st = some j →
      init_resp hw st j ≠ 0 ∧ j < 9 ∧ j ≠ 4 ∧ ∀ k, k < j → k ≠ 4 → init_resp hw st k = 0) ∧
    (init_first_failure hw st = none → ∀ k, k < 9 → k ≠ 4 → init_resp hw st k = 0) := by
  have r0 : init_resp hw st 0 = hw.i2c_status st.trace (Event.i2c_start I2C_ADDR_WRITE) := by
    simp [init_resp, init_ops]
  have r1 : init_resp hw st 1 =
      hw.i2c_status (st.trace ++ init_ops.take 1) (Event.i2c_write IODIRA) := rfl
  have r2 : init_resp hw st 2 =
      hw.i2c_status (st.trace ++ init_ops.take 2) (Event.i2c_write 0b11111110) := rfl
  have r3 : init_resp hw st 3 =
      hw.i2c_status (st.trace ++ init_ops.take 3) (Event.i2c_write 0b11100000) := rfl
  have r5 : init_resp hw st 5 =
      hw.i2c_status (st.trace ++ init_ops.take 5) (Event.i2c_start I2C_ADDR_WRITE) := rfl
  have r6 : init_resp hw st 6 =
      hw.i2c_status (st.trace ++ init_ops.take 6) (Event.i2c_write GPPUA) := rfl
  have r7 : init_resp hw st 7 =
      hw.i2c_status (st.trace ++ init_ops.take 7) (Event.i2c_write 0b11111110) := rfl
  have r8 : init_resp hw st 8 =
      hw.i2c_status (st.trace ++ init_ops.take 8) (Event.i2c_write 0b11100000) := rfl
  simp only [init_ops, List.take_succ_cons, List.take_zero] at r1 r2 r3 r5 r6 r7 r8
  by_cases h0 : init_resp hw st 0 = 0
  swap
  · have hf : init_first_failure hw st = some 0 := by
      unfold init_first_failure
      rw [List.find?_cons_of_pos _ (by simpa using h0)]
    have g0 := h0
    rw [r0] at g0
    rw [hf]
    refine ⟨?_, ?_, ?_, ?_⟩
    · simp [init_mcp23018, bus_chain_cons, init_ops, g0]
    · show _ = init_resp hw st 0
      rw [r0]
      simp [init_mcp23018, bus_chain_cons, g0]
    · intro j hj
      cases hj
      refine ⟨h0, by norm_num, by norm_num, ?_⟩
      intro m hm hm4
      interval_cases m <;> first | assumption | exact absurd rfl hm4
    · intro hn
      cases hn
  have g0 := h0
  rw [r0] at g0
  by_cases h1 : init_resp hw st 1 = 0
  swap
  · have hf : init_first_failure hw st = some 1 := by
      unfold init_first_failure
      rw [List.find?_cons_of_neg _ (by simpa using h0), List.find?_cons_of_pos _ (by simpa using h1)]
    have g1 := h1
    rw [r1] at g1
    rw [hf]
    refine ⟨?_, ?_, ?_, ?_⟩
    · simp [init_mcp23018, bus_chain_cons, init_ops, g0, g1]
    · show _ = init_resp hw st 1
      rw [r1]
      simp [init_mcp23018, bus_chain_cons, g0, g1]
    · intro j hj
      cases hj
      refine ⟨h1, by norm_num, by norm_num, ?_⟩
      intro m hm hm4
      interval_cases m <;> first | assumption | exact absurd rfl hm4
    · intro hn
      cases hn
  have g1 := h1
  rw [r1] at g1
  by_cases h2 : init_resp hw st 2 = 0
  swap
  · have hf : init_first_failure hw st = some 2 := by
      unfold init_first_failure
      rw [List.find?_cons_of_neg _ (by simpa using h0), List.find?_cons_of_neg _ (by simpa using h1), List.find?_cons_of_pos _ (by simpa using h2)]
    have g2 := h2
    rw [r2] at g2
    rw [hf]
    refine ⟨?_, ?_, ?_, ?_⟩
    · simp [init_mcp23018, bus_chain_cons, init_ops, g0, g1, g2]
    · show _ = init_resp hw st 2
      rw [r2]
      simp [init_mcp23018, bus_chain_cons, g0, g1, g2]
    · intro j hj
      cases hj
      refine ⟨h2, by norm_num, by norm_num, ?_⟩
      intro m hm hm4
      interval_cases m <;> first | assumption | exact absurd rfl hm4
    · intro hn
      cases hn
  have g2 := h2
  rw [r2] at g2
  by_cases h3 : init_resp hw st 3 = 0
  swap
  · have hf : init_first_failure hw st = some 3 := by
      unfold init_first_failure
      rw [List.find?_cons_of_neg _ (by simpa using h0), List.find?_cons_of_neg _ (by simpa using h1), List.find?_cons_of_neg _ (by simpa using h2), List.find?_cons_of_pos _ (by simpa using h3)]
    have g3 := h3
    rw [r3] at g3
    rw [hf]
    refine ⟨?_, ?_, ?_, ?_⟩
    · simp [init_mcp23018, bus_chain_cons, init_ops, g0, g1, g2, g3]
    · show _ = init_resp hw st 3
      rw [r3]
      simp [init_mcp23018, bus_chain_cons, g0, g1, g2, g3]
    · intro j hj
      cases hj
      refine ⟨h3, by norm_num, by norm_num, ?_⟩
      intro m hm hm4
      interval_cases m <;> first | assumption | exact absurd rfl hm4
    · intro hn
      cases hn
  have g3 := h3
  rw [r3] at g3
  by_cases h5 : init_resp hw st 5 = 0
  swap
  · have hf : init_first_failure hw st = some 5 := by
      unfold init_first_failure
      rw [List.find?_cons_of_neg _ (by simpa using h0), List.find?_cons_of_neg _ (by simpa using h1), List.find?_cons_of_neg _ (by simpa using h2), List.find?_cons_of_neg _ (by simpa using h3), List.find?_cons_of_pos _ (by simpa using h5)]
    have g5 := h5
    rw [r5] at g5
    rw [hf]
    refine ⟨?_, ?_, ?_, ?_⟩
    · simp [init_mcp23018, bus_chain_cons, init_ops, g0, g1, g2, g3, g5]
    · show _ = init_resp hw st 5
      rw [r5]
      simp [init_mcp23018, bus_chain_cons, g0, g1, g2, g3, g5]
    · intro j hj
      cases hj
      refine ⟨h5, by norm_num, by norm_num, ?_⟩
      intro m hm hm4
      interval_cases m <;> first | assumption | exact absurd rfl hm4
    · intro hn
      cases hn
  have g5 := h5
  rw [r5] at g5
  by_cases h6 : init_resp hw st 6 = 0
  swap
  · have hf : init_first_failure hw st = some 6 := by
      unfold init_first_failure
      rw [List.find?_cons_of_neg _ (by simpa using h0), List.find?_cons_of_neg _ (by simpa using h1), List.find?_cons_of_neg _ (by simpa using h2), List.find?_cons_of_neg _ (by simpa using h3), List.find?_cons_of_neg _ (by simpa using h5), List.find?_cons_of_pos _ (by simpa using h6)]
    have g6 := h6
    rw [r6] at g6
    rw [hf]
    refine ⟨?_, ?_, ?_, ?_⟩
    · simp [init_mcp23018, bus_chain_cons, init_ops, g0, g1, g2, g3, g5, g6]
    · show _ = init_resp hw st 6
      rw [r6]
      simp [init_mcp23018, bus_chain_cons, g0, g1, g2, g3, g5, g6]
    · intro j hj
      cases hj
      refine ⟨h6, by norm_num, by norm_num, ?_⟩
      intro m hm hm4
      interval_cases m <;> first | assumption | exact absurd rfl hm4
    · intro hn
      cases hn
  have g6 := h6
  rw [r6] at g6
  by_cases h7 : init_resp hw st 7 = 0
  swap
  · have hf : init_first_failure hw st = some 7 := by
      unfold init_first_failure
      rw [List.find?_cons_of_neg _ (by simpa using h0), List.find?_cons_of_neg _ (by simpa using h1), List.find?_cons_of_neg _ (by simpa using h2), List.find?_cons_of_neg _ (by simpa using h3), List.find?_cons_of_neg _ (by simpa using h5), List.find?_cons_of_neg _ (by simpa using h6), List.find?_cons_of_pos _ (by simpa using h7)]
    have g7 := h7
    rw [r7] at g7
    rw [hf]
    refine ⟨?_, ?_, ?_, ?_⟩
    · simp [init_mcp23018, bus_chain_cons, init_ops, g0, g1, g2, g3, g5, g6, g7]
    · show _ = init_resp hw st 7
      rw [r7]
      simp [init_mcp23018, bus_chain_cons, g0, g1, g2, g3, g5, g6, g7]
    · intro j hj
      cases hj
      refine ⟨h7, by norm_num, by norm_num, ?_⟩
      intro m hm hm4
      interval_cases m <;> first | assumption | exact absurd rfl hm4
    · intro hn
      cases hn
  have g7 := h7
  rw [r7] at g7
  by_cases h8 : init_resp hw st 8 = 0
  swap
  · have hf : init_first_failure hw st = some 8 := by
      unfold init_first_failure
      rw [List.find?_cons_of_neg _ (by simpa using h0), List.find?_cons_of_neg _ (by simpa using h1), List.find?_cons_of_neg _ (by simpa using h2), List.find?_cons_of_neg _ (by simpa using h3), List.find?_cons_of_neg _ (by simpa using h5), List.find?_cons_of_neg _ (by simpa using h6), List.find?_cons_of_neg _ (by simpa using h7), List.find?_cons_of_pos _ (by simpa using h8)]
    have g8 := h8
    rw [r8] at g8
    rw [hf]
    refine ⟨?_, ?_, ?_, ?_⟩
    · simp [init_mcp23018, bus_chain_cons, init_ops, g0, g1, g2, g3, g5, g6, g7, g8]
    · show _ = init_resp hw st 8
      rw [r8]
      simp [init_mcp23018, bus_chain_cons, g0, g1, g2, g3, g5, g6, g7, g8]
    · intro j hj
      cases hj
      refine ⟨h8, by norm_num, by norm_num, ?_⟩
      intro m hm hm4
      interval_cases m <;> first | assumption | exact absurd rfl hm4
    · intro hn
      cases hn
  have g8 := h8
  rw [r8] at g8
  have hf : init_first_failure hw st = none := by
    unfold init_first_failure
    rw [List.find?_cons_of_neg _ (by simpa using h0), List.find?_cons_of_neg _ (by simpa using h1), List.find?_cons_of_neg _ (by simpa using h2), List.find?_cons_of_neg _ (by simpa using h3), List.find?_cons_of_neg _ (by simpa using h5), List.find?_cons_of_neg _ (by simpa using h6), List.find?_cons_of_neg _ (by simpa using h7), List.find?_cons_of_neg _ (by simpa using h8)]
    rfl
  rw [hf]
  refine ⟨?_, ?_, ?_, ?_⟩
  · simp [init_mcp23018, bus_chain_cons, init_ops, g0, g1, g2, g3, g5, g6, g7, g8]
  · simp [init_mcp23018, bus_chain_cons, g0, g1, g2, g3, g5, g6, g7, g8]
  · intro j hj
    cases hj
  · intro _ m hm hm4
    interval_cases m <;> first | assumption | exact absurd rfl hm4

end B1t
